import Mathlib

/-!
Verification of the `resolver` package: instance selection, scoring, and
multi-workload bin-packing (`pkg/resolver/instance_types.go` and the
trace-simulation file defining `BinPackWorkloadsWithQuota` /
`BinPackWorkloadsNaive`).

Go machine integers are modelled as `Int`, Go `float64` as `ℚ` (the spec
treats these quantities as reals), Go maps as association lists with the
zero-value-on-missing-key lookup, and the potentially non-terminating
packing loops as fuelled recursions returning `Option` (`none` = the Go
loop has not terminated within the given fuel).
-/

namespace Resolver

/-- `AzureInstanceSpec` from instance_types.go. -/
structure AzureInstanceSpec where
  Name : String
  VCpus : Int
  MemoryGiB : ℚ
  StorageGiB : ℚ
  PricePerHour : ℚ
  Family : String
  Capabilities : List (String × String)
  GPUCount : Int
  GPUType : String
  AvailabilityZones : List String
  EphemeralOSDisk : Bool
  NestedVirtualization : Bool
  SpotSupported : Bool
  ConfidentialComputing : Bool
  TrustedLaunch : Bool
  AcceleratedNetworking : Bool
  MaxPods : Int
  UltraSSDEnabled : Bool
  ProximityPlacement : Bool
  deriving Repr, DecidableEq, Inhabited

/-- The Go zero value `AzureInstanceSpec{}` returned as the no-machine sentinel. -/
def emptySpec : AzureInstanceSpec :=
  { Name := "", VCpus := 0, MemoryGiB := 0, StorageGiB := 0, PricePerHour := 0,
    Family := "", Capabilities := [], GPUCount := 0, GPUType := "",
    AvailabilityZones := [], EphemeralOSDisk := false, NestedVirtualization := false,
    SpotSupported := false, ConfidentialComputing := false, TrustedLaunch := false,
    AcceleratedNetworking := false, MaxPods := 0, UltraSSDEnabled := false,
    ProximityPlacement := false }

/-- `WorkloadProfile` from instance_types.go. -/
structure WorkloadProfile where
  CPURequirements : Int
  MemoryRequirements : ℚ
  IORequirements : ℚ
  GPURequirements : Int
  GPUType : String
  Zone : String
  RequireEphemeralOS : Bool
  RequireNestedVirt : Bool
  RequireSpot : Bool
  RequireConfidential : Bool
  Capabilities : List (String × String)
  deriving Repr, DecidableEq, Inhabited

/-- Lookup in a Go `map[string]string`: `val, ok := m[k]`. -/
def capLookup (caps : List (String × String)) (k : String) : Option String :=
  (caps.find? (fun p => p.1 == k)).map (fun p => p.2)

/-- `strings.EqualFold`, modelled as case-insensitive string equality. -/
def eqFold (a b : String) : Bool :=
  a.toLower == b.toLower

/-- `PackedVM` from instance_types.go. -/
structure PackedVM where
  InstanceType : AzureInstanceSpec
  Workloads : List WorkloadProfile
  deriving Repr, DecidableEq, Inhabited

/-- `PackingResult` from instance_types.go. -/
structure PackingResult where
  VMs : List PackedVM
  deriving Repr, DecidableEq, Inhabited

/-- `SelectionStrategy` (closed enumeration per the spec). -/
inductive SelectionStrategy where
  | general
  | cpu
  | memory
  | io
  deriving Repr, DecidableEq, Inhabited

/-- `FilterByZone` from instance_types.go. -/
def FilterByZone (inst : AzureInstanceSpec) (w : WorkloadProfile) : Bool :=
  if w.Zone == "" then true
  else inst.AvailabilityZones.contains w.Zone

/-- `FilterByGPU` from instance_types.go. -/
def FilterByGPU (inst : AzureInstanceSpec) (w : WorkloadProfile) : Bool :=
  if w.GPURequirements == 0 then true
  else if inst.GPUCount < w.GPURequirements then false
  else if w.GPUType != "" && !(eqFold inst.GPUType w.GPUType) then false
  else true

/-- `FilterByEphemeralOS` from instance_types.go. -/
def FilterByEphemeralOS (inst : AzureInstanceSpec) (w : WorkloadProfile) : Bool :=
  if !w.RequireEphemeralOS then true else inst.EphemeralOSDisk

/-- `FilterByTrustedLaunch` from instance_types.go. -/
def FilterByTrustedLaunch (inst : AzureInstanceSpec) (w : WorkloadProfile) : Bool :=
  match capLookup w.Capabilities "TrustedLaunch" with
  | some v => if v == "true" then inst.TrustedLaunch else true
  | none => true

/-- `FilterByAcceleratedNetworking` from instance_types.go. -/
def FilterByAcceleratedNetworking (inst : AzureInstanceSpec) (w : WorkloadProfile) : Bool :=
  match capLookup w.Capabilities "AcceleratedNetworking" with
  | some v => if v == "true" then inst.AcceleratedNetworking else true
  | none => true

/-- `FilterByMaxPods` from instance_types.go (`fmt.Sscanf "%d"` modelled as
`String.toInt?`; an unparsable entry passes, as in the source). -/
def FilterByMaxPods (inst : AzureInstanceSpec) (w : WorkloadProfile) : Bool :=
  match capLookup w.Capabilities "MaxPods" with
  | some v =>
    match v.toInt? with
    | some req => if inst.MaxPods > 0 then decide (req ≤ inst.MaxPods) else true
    | none => true
  | none => true

/-- A filter predicate, as in `FilterFunc`. -/
def FilterFunc : Type :=
  AzureInstanceSpec → WorkloadProfile → Bool

/-- `FilterInstanceTypes` from instance_types.go: keep candidates passing all filters. -/
def FilterInstanceTypes (candidates : List AzureInstanceSpec) (w : WorkloadProfile)
    (filters : List FilterFunc) : List AzureInstanceSpec :=
  candidates.filter (fun inst => filters.all (fun f => f inst w))

/-- Go's local `min` helper on float64. -/
def goMin (a b : ℚ) : ℚ :=
  if a < b then a else b

/-- `cpuFit` from instance_types.go. -/
def cpuFit (vm : AzureInstanceSpec) (w : WorkloadProfile) : ℚ :=
  if w.CPURequirements == 0 then 1
  else goMin ((vm.VCpus : ℚ) / (w.CPURequirements : ℚ)) 1

/-- `memFit` from instance_types.go. -/
def memFit (vm : AzureInstanceSpec) (w : WorkloadProfile) : ℚ :=
  if w.MemoryRequirements == 0 then 1
  else goMin (vm.MemoryGiB / w.MemoryRequirements) 1

/-- `ioFit` from instance_types.go. -/
def ioFit (vm : AzureInstanceSpec) (w : WorkloadProfile) : ℚ :=
  if w.IORequirements == 0 then 1
  else goMin (vm.StorageGiB / w.IORequirements) 1

/-- `ComputeFit` from instance_types.go: weakest-dimension fit, capped at 1. -/
def ComputeFit (vm : AzureInstanceSpec) (w : WorkloadProfile) : ℚ :=
  let cpu := cpuFit vm w
  let mem := memFit vm w
  let io := ioFit vm w
  let fit := cpu
  let fit := if mem < fit then mem else fit
  let fit := if io < fit then io else fit
  if fit > 1 then 1 else fit

/-- `gpuFit` from instance_types.go. -/
def gpuFit (vm : AzureInstanceSpec) (w : WorkloadProfile) : ℚ :=
  if w.GPURequirements == 0 then 1
  else if vm.GPUCount < w.GPURequirements then 0
  else if w.GPUType != "" && !(eqFold vm.GPUType w.GPUType) then 0
  else 1

/-- `zoneScore` from instance_types.go. -/
def zoneScore (vm : AzureInstanceSpec) (zone : String) : ℚ :=
  if zone == "" then 1
  else if vm.AvailabilityZones.contains zone then 1
  else 0

/-- `boolScore` from instance_types.go. -/
def boolScore (vmHas required : Bool) : ℚ :=
  if !required then 1
  else if vmHas then 1
  else 0

/-- `ScoreInstance` from instance_types.go. -/
def ScoreInstance (vm : AzureInstanceSpec) (w : WorkloadProfile)
    (strategy : SelectionStrategy) : ℚ :=
  let costEfficiency := 1 / (vm.PricePerHour + 1/100)
  let resourceFit := ComputeFit vm w
  let availabilityScore := zoneScore vm w.Zone
  let gpuScore := gpuFit vm w
  let ephemeralScore := boolScore vm.EphemeralOSDisk w.RequireEphemeralOS
  let nestedVirtScore := boolScore vm.NestedVirtualization w.RequireNestedVirt
  let spotScore := boolScore vm.SpotSupported w.RequireSpot
  let confidentialScore := boolScore vm.ConfidentialComputing w.RequireConfidential
  match strategy with
  | .cpu =>
    (1/2) * cpuFit vm w + (1/5) * costEfficiency + (1/10) * resourceFit +
      (1/10) * availabilityScore + (1/10) * gpuScore
  | .memory =>
    (1/2) * memFit vm w + (1/5) * costEfficiency + (1/10) * resourceFit +
      (1/10) * availabilityScore + (1/10) * gpuScore
  | .io =>
    (1/2) * ioFit vm w + (1/5) * costEfficiency + (1/10) * resourceFit +
      (1/10) * availabilityScore + (1/10) * gpuScore
  | .general =>
    (3/10) * costEfficiency + (1/5) * resourceFit + (1/10) * availabilityScore +
      (1/10) * gpuScore + (1/10) * ephemeralScore + (1/10) * nestedVirtScore +
      (1/20) * spotScore + (1/20) * confidentialScore

/-- The scan of `RankInstanceTypes`'s inner loop: running first-maximum
(index, value) over the remaining list, starting at position `j`.  The best
index is updated only on a strictly greater key, as in the Go `>` test. -/
def bestScan {α β : Type} [LinearOrder β] (key : α → β) :
    List α → Nat → Nat × α → Nat × α
  | [], _, best => best
  | x :: xs, j, best =>
    bestScan key xs (j + 1) (if key best.2 < key x then (j, x) else best)

/-- One outer-loop step plus recursion of `RankInstanceTypes`'s selection
sort, fuelled by the list length (the Go loop runs `len(out)` times). -/
def selectionSortGo {α β : Type} [LinearOrder β] (key : α → β) :
    Nat → List α → List α
  | 0, _ => []
  | _ + 1, [] => []
  | n + 1, c :: rest =>
    let p := bestScan key rest 1 (0, c)
    if p.1 = 0 then c :: selectionSortGo key n rest
    else p.2 :: selectionSortGo key n (rest.set (p.1 - 1) c)

/-- The selection sort used by `RankInstanceTypes` (descending by key;
for each position the first occurrence of the running strict maximum is
swapped in). -/
def selectionSortBy {α β : Type} [LinearOrder β] (key : α → β) (l : List α) : List α :=
  selectionSortGo key l.length l

/-- `RankInstanceTypes` from instance_types.go. -/
def RankInstanceTypes (candidates : List AzureInstanceSpec) (w : WorkloadProfile)
    (score : AzureInstanceSpec → WorkloadProfile → ℚ) : List AzureInstanceSpec :=
  selectionSortBy (fun vm => score vm w) candidates

/-- The standard filter list composed inside `selectWithStrategy`. -/
def standardFilters : List FilterFunc :=
  [FilterByZone, FilterByGPU, FilterByEphemeralOS, FilterByTrustedLaunch,
   FilterByAcceleratedNetworking, FilterByMaxPods]

/-- `selectWithStrategy` from instance_types.go: filter, rank, return the top
candidate and its score, or the zero-value machine with score -1. -/
def selectWithStrategy (candidates : List AzureInstanceSpec) (w : WorkloadProfile)
    (strategy : SelectionStrategy) : AzureInstanceSpec × ℚ :=
  let filtered := FilterInstanceTypes candidates w standardFilters
  let scoreFunc := fun vm wl => ScoreInstance vm wl strategy
  let ranked := RankInstanceTypes filtered w scoreFunc
  match ranked with
  | [] => (emptySpec, -1)
  | best :: _ => (best, scoreFunc best w)

/-- Go `int(x)` on a float64: truncation toward zero. -/
def goTrunc (q : ℚ) : Int :=
  if 0 ≤ q then ⌊q⌋ else ⌈q⌉

/-- The demand score `CPURequirements + int(MemoryRequirements)` used to sort
workloads in `BinPackWorkloads` and `BinPackWorkloadsWithQuota`. -/
def demand (w : WorkloadProfile) : Int :=
  w.CPURequirements + goTrunc w.MemoryRequirements

/-- One pass of the workload exchange sort (`if sorted[j] > sorted[i]: swap`):
`exchPass key c l` returns the final holder of position `i` together with the
rest of the segment after all immediate swaps. -/
def exchPass {α β : Type} [LinearOrder β] (key : α → β) : α → List α → α × List α
  | c, [] => (c, [])
  | c, x :: xs =>
    if key c < key x then
      let p := exchPass key x xs
      (p.1, c :: p.2)
    else
      let p := exchPass key c xs
      (p.1, x :: p.2)

/-- The double-loop exchange sort of the packing planners, fuelled by list
length (the Go outer loop runs `len(sorted)` times). -/
def exchSortGo {α β : Type} [LinearOrder β] (key : α → β) : Nat → List α → List α
  | 0, _ => []
  | _ + 1, [] => []
  | n + 1, c :: xs =>
    let p := exchPass key c xs
    p.1 :: exchSortGo key n p.2

/-- The descending exchange sort on the full list. -/
def exchSortBy {α β : Type} [LinearOrder β] (key : α → β) (l : List α) : List α :=
  exchSortGo key l.length l

/-- Step 1 of both packing planners: sort workloads by descending demand. -/
def sortWorkloads (ws : List WorkloadProfile) : List WorkloadProfile :=
  exchSortBy demand ws

/-- The `nextIdx` scan of the packing loops: index of the first workload whose
packed flag is still false. -/
def firstUnpacked : List Bool → Option Nat
  | [] => none
  | b :: bs => if b then (firstUnpacked bs).map (· + 1) else some 0

/-- State of the greedy per-machine packing scan. -/
structure ScanState where
  packed : List (Nat × WorkloadProfile)
  flags : List Bool
  remCPU : Int
  remMem : ℚ
  deriving Repr, DecidableEq

/-- The greedy inner loop of both packing planners: scan the (indexed) sorted
workloads, skip already-packed ones, and pack each one that fits the remaining
capacity, flipping its flag.  Workloads are carried with their position in the
sorted order (the Go loop variable `i`). -/
def packScan : List (Nat × WorkloadProfile) → List Bool → Int → ℚ → ScanState
  | [], u, rc, rm => ⟨[], u, rc, rm⟩
  | (i, w) :: rest, u, rc, rm =>
    if u.getD i true then packScan rest u rc rm
    else if w.CPURequirements ≤ rc ∧ w.MemoryRequirements ≤ rm then
      let s := packScan rest (u.set i true) (rc - w.CPURequirements) (rm - w.MemoryRequirements)
      ⟨(i, w) :: s.packed, s.flags, s.remCPU, s.remMem⟩
    else packScan rest u rc rm

/-- A packed machine carrying the sorted-order positions of its workloads. -/
def PackedVMIdx : Type :=
  AzureInstanceSpec × List (Nat × WorkloadProfile)

/-- Erase the position instrumentation, giving the Go `PackedVM`. -/
def erasePackedVM (p : PackedVMIdx) : PackedVM :=
  ⟨p.1, p.2.map Prod.snd⟩

/-- The seed loop of `BinPackWorkloads`, fuelled: `none` means the Go loop has
not terminated within `fuel` iterations. -/
def packLoop (candidates : List AzureInstanceSpec) (strategy : SelectionStrategy)
    (sorted : List WorkloadProfile) :
    Nat → List Bool → List PackedVMIdx → Option (List PackedVMIdx)
  | 0, _, _ => none
  | fuel + 1, u, acc =>
    match firstUnpacked u with
    | none => some acc.reverse
    | some i =>
      let w := sorted.getD i default
      let best := (selectWithStrategy candidates w strategy).1
      if best.Name = "" then some acc.reverse
      else
        let s := packScan sorted.enum u best.VCpus best.MemoryGiB
        packLoop candidates strategy sorted fuel s.flags ((best, s.packed) :: acc)

/-- `BinPackWorkloads` from instance_types.go, instrumented with sorted-order
positions. -/
def BinPackWorkloadsIdx (fuel : Nat) (workloads : List WorkloadProfile)
    (candidates : List AzureInstanceSpec) (strategy : SelectionStrategy) :
    Option (List PackedVMIdx) :=
  let sorted := sortWorkloads workloads
  packLoop candidates strategy sorted fuel (List.replicate workloads.length false) []

/-- `BinPackWorkloads` from instance_types.go (fuelled). -/
def BinPackWorkloads (fuel : Nat) (workloads : List WorkloadProfile)
    (candidates : List AzureInstanceSpec) (strategy : SelectionStrategy) :
    Option PackingResult :=
  (BinPackWorkloadsIdx fuel workloads candidates strategy).map
    (fun l => ⟨l.map erasePackedVM⟩)

/-- `QuotaMap` from the trace-simulation file: Go `map[string]int`. -/
def QuotaMap : Type :=
  List (String × Int)

/-- Go map read `q[fam]`: zero value for a missing key. -/
def qlookup (q : QuotaMap) (fam : String) : Int :=
  ((q.find? (fun p => p.1 == fam)).map (fun p => p.2)).getD 0

/-- The quota guard of `BinPackWorkloadsWithQuota`:
`quota != nil && quota[fam] > 0 && used[fam]+v > quota[fam]`. -/
def quotaBlocked (quota : Option QuotaMap) (fam : String) (used : String → Int)
    (v : Int) : Bool :=
  match quota with
  | none => false
  | some q => decide (0 < qlookup q fam) && decide (qlookup q fam < used fam + v)

/-- The seed loop of `BinPackWorkloadsWithQuota`, fuelled.  The candidate list
shrinks on quota exhaustion; `used` is the Go `usedVCpus` map. -/
def quotaPackLoop (strategy : SelectionStrategy) (sorted : List WorkloadProfile)
    (quota : Option QuotaMap) :
    Nat → List AzureInstanceSpec → List Bool → (String → Int) → List PackedVMIdx →
    Option (List PackedVMIdx)
  | 0, _, _, _, _ => none
  | fuel + 1, candidates, u, used, acc =>
    match firstUnpacked u with
    | none => some acc.reverse
    | some i =>
      let w := sorted.getD i default
      let best := (selectWithStrategy candidates w strategy).1
      if best.Name = "" then some acc.reverse
      else
        let fam := best.Family
        if quotaBlocked quota fam used best.VCpus then
          quotaPackLoop strategy sorted quota fuel
            (candidates.filter (fun c => !(c.Family == fam))) u used acc
        else
          let s := packScan sorted.enum u best.VCpus best.MemoryGiB
          quotaPackLoop strategy sorted quota fuel candidates s.flags
            (fun t => if t = fam then used t + best.VCpus else used t)
            ((best, s.packed) :: acc)

/-- `BinPackWorkloadsWithQuota` from the trace-simulation file, instrumented. -/
def BinPackWorkloadsWithQuotaIdx (fuel : Nat) (workloads : List WorkloadProfile)
    (candidates : List AzureInstanceSpec) (strategy : SelectionStrategy)
    (quota : Option QuotaMap) : Option (List PackedVMIdx) :=
  let sorted := sortWorkloads workloads
  quotaPackLoop strategy sorted quota fuel candidates
    (List.replicate workloads.length false) (fun _ => 0) []

/-- `BinPackWorkloadsWithQuota` from the trace-simulation file (fuelled). -/
def BinPackWorkloadsWithQuota (fuel : Nat) (workloads : List WorkloadProfile)
    (candidates : List AzureInstanceSpec) (strategy : SelectionStrategy)
    (quota : Option QuotaMap) : Option PackingResult :=
  (BinPackWorkloadsWithQuotaIdx fuel workloads candidates strategy quota).map
    (fun l => ⟨l.map erasePackedVM⟩)

/-- The best-so-far scan of `BinPackWorkloadsNaive`: smallest machine (first by
vcpus, then by memory) whose raw CPU and memory capacity fit the workload. -/
def naiveScan (w : WorkloadProfile) :
    List AzureInstanceSpec → Option AzureInstanceSpec → Option AzureInstanceSpec
  | [], best => best
  | vm :: rest, best =>
    if w.CPURequirements ≤ vm.VCpus ∧ w.MemoryRequirements ≤ vm.MemoryGiB then
      match best with
      | none => naiveScan w rest (some vm)
      | some b =>
        if vm.VCpus < b.VCpus ∨ (vm.VCpus = b.VCpus ∧ vm.MemoryGiB < b.MemoryGiB) then
          naiveScan w rest (some vm)
        else naiveScan w rest (some b)
    else naiveScan w rest best

/-- `BinPackWorkloadsNaive` from the trace-simulation file: one machine per
workload, dropping workloads no machine fits. -/
def BinPackWorkloadsNaive (workloads : List WorkloadProfile)
    (candidates : List AzureInstanceSpec) : PackingResult :=
  ⟨workloads.filterMap (fun w =>
    (naiveScan w candidates none).map (fun b => PackedVM.mk b [w]))⟩

/-- Sum of the CPU requirements of a workload list. -/
def sumCpu (ws : List WorkloadProfile) : Int :=
  (ws.map (fun w => w.CPURequirements)).sum

/-- Sum of the memory requirements of a workload list. -/
def sumMem (ws : List WorkloadProfile) : ℚ :=
  (ws.map (fun w => w.MemoryRequirements)).sum

/-- Cumulative committed vCPUs of the machines of one family in a result. -/
def famVCpus (res : PackingResult) (fam : String) : Int :=
  (res.VMs.map (fun vm => if vm.InstanceType.Family = fam then vm.InstanceType.VCpus else 0)).sum

/-! ### Exchange-sort lemmas (workload demand sort) -/

theorem exchPass_length {α β : Type} [LinearOrder β] (key : α → β) (c : α) (l : List α) :
    (exchPass key c l).2.length = l.length := by
  induction l generalizing c with
  | nil => simp [exchPass]
  | cons x xs ih =>
    by_cases h : key c < key x
    · simp [exchPass, h, ih]
    · simp [exchPass, h, ih]

theorem exchPass_perm {α β : Type} [LinearOrder β] (key : α → β) (c : α) (l : List α) :
    List.Perm (c :: l) ((exchPass key c l).1 :: (exchPass key c l).2) := by
  induction l generalizing c with
  | nil => simp [exchPass]
  | cons x xs ih =>
    by_cases h : key c < key x
    · simp only [exchPass, if_pos h]
      exact ((ih x).cons c).trans (List.Perm.swap _ _ _)
    · simp only [exchPass, if_neg h]
      exact (List.Perm.swap _ _ _).trans (((ih c).cons x).trans (List.Perm.swap _ _ _))

theorem exchPass_max {α β : Type} [LinearOrder β] (key : α → β) (c : α) (l : List α) :
    key c ≤ key (exchPass key c l).1 ∧ ∀ x ∈ l, key x ≤ key (exchPass key c l).1 := by
  induction l generalizing c with
  | nil => simp [exchPass]
  | cons x xs ih =>
    by_cases h : key c < key x
    · simp only [exchPass, if_pos h]
      refine ⟨le_of_lt (lt_of_lt_of_le h (ih x).1), ?_⟩
      intro y hy
      rcases List.mem_cons.mp hy with rfl | hy
      · exact (ih y).1
      · exact (ih x).2 y hy
    · simp only [exchPass, if_neg h]
      refine ⟨(ih c).1, ?_⟩
      intro y hy
      rcases List.mem_cons.mp hy with rfl | hy
      · exact le_trans (le_of_not_lt h) (ih c).1
      · exact (ih c).2 y hy

theorem exchSortGo_perm {α β : Type} [LinearOrder β] (key : α → β) :
    ∀ (n : Nat) (l : List α), l.length ≤ n → List.Perm (exchSortGo key n l) l := by
  intro n
  induction n with
  | zero =>
    intro l hl
    rw [List.length_eq_zero.mp (Nat.le_zero.mp hl)]
    simp [exchSortGo]
  | succ n ih =>
    intro l hl
    match l with
    | [] => simp [exchSortGo]
    | c :: xs =>
      simp only [exchSortGo]
      have hlen : (exchPass key c xs).2.length ≤ n := by
        rw [exchPass_length]
        exact Nat.le_of_succ_le_succ (by simpa using hl)
      exact (((ih _ hlen).cons _).trans (exchPass_perm key c xs).symm)

theorem exchSortGo_sorted {α β : Type} [LinearOrder β] (key : α → β) :
    ∀ (n : Nat) (l : List α), l.length ≤ n →
      List.Sorted (fun a b => key b ≤ key a) (exchSortGo key n l) := by
  intro n
  induction n with
  | zero =>
    intro l _
    simp [exchSortGo]
  | succ n ih =>
    intro l hl
    match l with
    | [] => simp [exchSortGo]
    | c :: xs =>
      simp only [exchSortGo]
      have hlen : (exchPass key c xs).2.length ≤ n := by
        rw [exchPass_length]
        exact Nat.le_of_succ_le_succ (by simpa using hl)
      refine List.sorted_cons.mpr ⟨?_, ih _ hlen⟩
      intro b hb
      have hb2 : b ∈ (exchPass key c xs).2 := (exchSortGo_perm key n _ hlen).mem_iff.mp hb
      have : b ∈ c :: xs :=
        (exchPass_perm key c xs).symm.mem_iff.mp (List.mem_cons_of_mem _ hb2)
      rcases List.mem_cons.mp this with rfl | hmem
      · exact (exchPass_max key b xs).1
      · exact (exchPass_max key c xs).2 b hmem

theorem exchSortBy_perm {α β : Type} [LinearOrder β] (key : α → β) (l : List α) :
    List.Perm (exchSortBy key l) l :=
  exchSortGo_perm key l.length l le_rfl

theorem exchSortBy_sorted {α β : Type} [LinearOrder β] (key : α → β) (l : List α) :
    List.Sorted (fun a b => key b ≤ key a) (exchSortBy key l) :=
  exchSortGo_sorted key l.length l le_rfl

theorem sortWorkloads_perm (ws : List WorkloadProfile) :
    List.Perm (sortWorkloads ws) ws :=
  exchSortBy_perm demand ws

theorem sortWorkloads_sorted (ws : List WorkloadProfile) :
    List.Sorted (fun a b => demand b ≤ demand a) (sortWorkloads ws) :=
  exchSortBy_sorted demand ws

/-! ### Selection-sort lemmas (candidate ranking) -/

theorem bestScan_spec {α β : Type} [LinearOrder β] (key : α → β) :
    ∀ (l : List α) (j bi : Nat) (bv : α),
      (bestScan key l j (bi, bv) = (bi, bv) ∧ ∀ x ∈ l, key x ≤ key bv) ∨
      (∃ l₁ x l₂, l = l₁ ++ x :: l₂ ∧
        bestScan key l j (bi, bv) = (j + l₁.length, x) ∧
        key bv < key x ∧ (∀ y ∈ l₁, key y < key x) ∧ ∀ y ∈ l₂, key y ≤ key x) := by
  intro l
  induction l with
  | nil => intro j bi bv; exact Or.inl ⟨rfl, by simp⟩
  | cons a as ih =>
    intro j bi bv
    by_cases h : key bv < key a
    · simp only [bestScan, if_pos h]
      rcases ih (j + 1) j a with ⟨heq, hle⟩ | ⟨m₁, x, m₂, hsplit, heq, hlt, hm₁, hm₂⟩
      · refine Or.inr ⟨[], a, as, by simp, by simpa using heq, h, by simp, hle⟩
      · refine Or.inr ⟨a :: m₁, x, m₂, by simp [hsplit], ?_, lt_trans h hlt, ?_, hm₂⟩
        · rw [heq]; simp [Nat.add_comm, Nat.add_assoc, Nat.add_left_comm]
        · intro y hy
          rcases List.mem_cons.mp hy with rfl | hy
          · exact hlt
          · exact hm₁ y hy
    · simp only [bestScan, if_neg h]
      rcases ih (j + 1) bi bv with ⟨heq, hle⟩ | ⟨m₁, x, m₂, hsplit, heq, hlt, hm₁, hm₂⟩
      · refine Or.inl ⟨heq, ?_⟩
        intro y hy
        rcases List.mem_cons.mp hy with rfl | hy
        · exact le_of_not_lt h
        · exact hle y hy
      · refine Or.inr ⟨a :: m₁, x, m₂, by simp [hsplit], ?_, hlt, ?_, hm₂⟩
        · rw [heq]; simp [Nat.add_comm, Nat.add_assoc, Nat.add_left_comm]
        · intro y hy
          rcases List.mem_cons.mp hy with rfl | hy
          · exact lt_of_le_of_lt (le_of_not_lt h) hlt
          · exact hm₁ y hy

theorem set_length_append {α : Type} (l₁ : List α) (b c : α) (l₂ : List α) :
    (l₁ ++ b :: l₂).set l₁.length c = l₁ ++ c :: l₂ := by
  induction l₁ with
  | nil => rfl
  | cons a t ih => simp [ih]

/-- The middle-swap permutation used by one selection-sort step. -/
theorem perm_swap_middle {α : Type} (c x : α) (l₁ l₂ : List α) :
    List.Perm (x :: (l₁ ++ c :: l₂)) (c :: (l₁ ++ x :: l₂)) :=
  ((List.perm_middle).cons x).trans
    ((List.Perm.swap c x _).trans ((List.perm_middle).symm.cons c))

theorem selectionSortGo_perm {α β : Type} [LinearOrder β] (key : α → β) :
    ∀ (n : Nat) (l : List α), l.length ≤ n → List.Perm (selectionSortGo key n l) l := by
  intro n
  induction n with
  | zero =>
    intro l hl
    rw [List.length_eq_zero.mp (Nat.le_zero.mp hl)]
    simp [selectionSortGo]
  | succ n ih =>
    intro l hl
    match l with
    | [] => simp [selectionSortGo]
    | c :: rest =>
      have hrest : rest.length ≤ n := Nat.le_of_succ_le_succ (by simpa using hl)
      rcases bestScan_spec key rest 1 0 c with ⟨heq, _⟩ | ⟨l₁, x, l₂, hsplit, heq, _, _, _⟩
      · simp only [selectionSortGo, heq, if_pos]
        exact (ih rest hrest).cons c
      · have hne : (bestScan key rest 1 (0, c)).1 ≠ 0 := by
          rw [heq]; omega
        simp only [selectionSortGo, if_neg hne]
        have hset : rest.set ((bestScan key rest 1 (0, c)).1 - 1) c = l₁ ++ c :: l₂ := by
          rw [heq, hsplit]
          simp [set_length_append l₁ x c l₂]
        have hlen : (rest.set ((bestScan key rest 1 (0, c)).1 - 1) c).length ≤ n := by
          simp [hrest]
        refine ((ih _ hlen).cons _).trans ?_
        rw [hset, heq, hsplit]
        exact perm_swap_middle c x l₁ l₂

/-- The head of one selection-sort pass is the first maximal-key element. -/
theorem selectionSortBy_head_firstMax {α β : Type} [LinearOrder β] (key : α → β)
    (c : α) (rest : List α) :
    ∃ m t l₁ l₂, selectionSortBy key (c :: rest) = m :: t ∧
      c :: rest = l₁ ++ m :: l₂ ∧ (∀ y ∈ l₁, key y < key m) ∧
      ∀ y ∈ c :: rest, key y ≤ key m := by
  rcases bestScan_spec key rest 1 0 c with ⟨heq, hle⟩ | ⟨l₁, x, l₂, hsplit, heq, hlt, hm₁, hm₂⟩
  · refine ⟨c, selectionSortGo key rest.length rest, [], rest, ?_, by simp, by simp, ?_⟩
    · simp only [selectionSortBy, List.length_cons, selectionSortGo, heq, if_pos]
    · intro y hy
      rcases List.mem_cons.mp hy with rfl | hy
      · exact le_rfl
      · exact hle y hy
  · have hne : (bestScan key rest 1 (0, c)).1 ≠ 0 := by
      rw [heq]; omega
    have hsort : selectionSortBy key (c :: rest) =
        (bestScan key rest 1 (0, c)).2 ::
          selectionSortGo key rest.length
            (rest.set ((bestScan key rest 1 (0, c)).1 - 1) c) := by
      simp only [selectionSortBy, List.length_cons, selectionSortGo, if_neg hne]
    refine ⟨x,
      selectionSortGo key rest.length (rest.set ((bestScan key rest 1 (0, c)).1 - 1) c),
      c :: l₁, l₂, ?_, by simp [hsplit], ?_, ?_⟩
    · rw [hsort, heq]
    · intro y hy
      rcases List.mem_cons.mp hy with rfl | hy
      · exact hlt
      · exact hm₁ y hy
    · intro y hy
      rcases List.mem_cons.mp hy with rfl | hy
      · exact le_of_lt hlt
      · rw [hsplit] at hy
        rcases List.mem_append.mp hy with hy | hy
        · exact le_of_lt (hm₁ y hy)
        · rcases List.mem_cons.mp hy with rfl | hy
          · exact le_rfl
          · exact hm₂ y hy

/-! ### Flag-list helpers -/

theorem goGetD_set_ne : ∀ (u : List Bool) (i j : Nat) (b d : Bool), i ≠ j →
    (u.set i b).getD j d = u.getD j d := by
  intro u
  induction u with
  | nil => intro i j b d _; rfl
  | cons a t ih =>
    intro i j b d h
    match i, j with
    | 0, 0 => exact absurd rfl h
    | 0, j + 1 => rfl
    | i + 1, 0 => rfl
    | i + 1, j + 1 => exact ih i j b d (fun hc => h (by rw [hc]))

theorem goGetD_set_true : ∀ (u : List Bool) (i : Nat), (u.set i true).getD i true = true := by
  intro u
  induction u with
  | nil => intro i; rfl
  | cons a t ih =>
    intro i
    match i with
    | 0 => rfl
    | i + 1 => exact ih i

/-! ### Greedy per-machine packing scan lemmas -/

theorem packScan_sum : ∀ (items : List (Nat × WorkloadProfile)) (u : List Bool)
    (rc : Int) (rm : ℚ),
    (packScan items u rc rm).remCPU + sumCpu ((packScan items u rc rm).packed.map Prod.snd) = rc ∧
    (packScan items u rc rm).remMem + sumMem ((packScan items u rc rm).packed.map Prod.snd) = rm := by
  intro items
  induction items with
  | nil => intro u rc rm; simp [packScan, sumCpu, sumMem]
  | cons p rest ih =>
    intro u rc rm
    obtain ⟨i, w⟩ := p
    by_cases h1 : u.getD i true = true
    · simpa only [packScan, h1, if_true] using ih u rc rm
    · by_cases h2 : w.CPURequirements ≤ rc ∧ w.MemoryRequirements ≤ rm
      · simp only [packScan, h1, if_false, if_pos h2, Bool.false_eq_true]
        have := ih (u.set i true) (rc - w.CPURequirements) (rm - w.MemoryRequirements)
        constructor
        · simp only [List.map_cons, sumCpu, List.sum_cons]
          have h := this.1
          simp only [sumCpu] at h
          linarith
        · simp only [List.map_cons, sumMem, List.sum_cons]
          have h := this.2
          simp only [sumMem] at h
          linarith
      · simpa only [packScan, h1, if_false, if_neg h2, Bool.false_eq_true] using ih u rc rm

theorem packScan_nonneg : ∀ (items : List (Nat × WorkloadProfile)) (u : List Bool)
    (rc : Int) (rm : ℚ), 0 ≤ rc → 0 ≤ rm →
    0 ≤ (packScan items u rc rm).remCPU ∧ 0 ≤ (packScan items u rc rm).remMem := by
  intro items
  induction items with
  | nil => intro u rc rm hc hm; exact ⟨hc, hm⟩
  | cons p rest ih =>
    intro u rc rm hc hm
    obtain ⟨i, w⟩ := p
    by_cases h1 : u.getD i true = true
    · simpa only [packScan, h1, if_true] using ih u rc rm hc hm
    · by_cases h2 : w.CPURequirements ≤ rc ∧ w.MemoryRequirements ≤ rm
      · simp only [packScan, h1, if_false, if_pos h2, Bool.false_eq_true]
        exact ih (u.set i true) _ _ (by linarith [h2.1]) (by linarith [h2.2])
      · simpa only [packScan, h1, if_false, if_neg h2, Bool.false_eq_true] using ih u rc rm hc hm

theorem packScan_nil_flags : ∀ (items : List (Nat × WorkloadProfile)) (u : List Bool)
    (rc : Int) (rm : ℚ), (packScan items u rc rm).packed = [] →
    (packScan items u rc rm).flags = u := by
  intro items
  induction items with
  | nil => intro u rc rm _; rfl
  | cons p rest ih =>
    intro u rc rm h
    obtain ⟨i, w⟩ := p
    by_cases h1 : u.getD i true = true
    · simp only [packScan, h1, if_true] at h ⊢
      exact ih u rc rm h
    · by_cases h2 : w.CPURequirements ≤ rc ∧ w.MemoryRequirements ≤ rm
      · simp only [packScan, h1, if_false, if_pos h2, Bool.false_eq_true] at h
        exact absurd h (List.cons_ne_nil _ _)
      · simp only [packScan, h1, if_false, if_neg h2, Bool.false_eq_true] at h ⊢
        exact ih u rc rm h

theorem packScan_mem : ∀ (items : List (Nat × WorkloadProfile)) (u : List Bool)
    (rc : Int) (rm : ℚ), ∀ p ∈ (packScan items u rc rm).packed, p ∈ items := by
  intro items
  induction items with
  | nil => intro u rc rm p hp; simp [packScan] at hp
  | cons q rest ih =>
    intro u rc rm p hp
    obtain ⟨i, w⟩ := q
    by_cases h1 : u.getD i true = true
    · simp only [packScan, h1, if_true] at hp
      exact List.mem_cons_of_mem _ (ih u rc rm p hp)
    · by_cases h2 : w.CPURequirements ≤ rc ∧ w.MemoryRequirements ≤ rm
      · simp only [packScan, h1, if_false, if_pos h2, Bool.false_eq_true] at hp
        rcases List.mem_cons.mp hp with rfl | hp
        · exact List.mem_cons_self _ _
        · exact List.mem_cons_of_mem _ (ih _ _ _ p hp)
      · simp only [packScan, h1, if_false, if_neg h2, Bool.false_eq_true] at hp
        exact List.mem_cons_of_mem _ (ih u rc rm p hp)

theorem packScan_flag_false : ∀ (items : List (Nat × WorkloadProfile)) (u : List Bool)
    (rc : Int) (rm : ℚ), ∀ p ∈ (packScan items u rc rm).packed, u.getD p.1 true = false := by
  intro items
  induction items with
  | nil => intro u rc rm p hp; simp [packScan] at hp
  | cons q rest ih =>
    intro u rc rm p hp
    obtain ⟨i, w⟩ := q
    by_cases h1 : u.getD i true = true
    · simp only [packScan, h1, if_true] at hp
      exact ih u rc rm p hp
    · by_cases h2 : w.CPURequirements ≤ rc ∧ w.MemoryRequirements ≤ rm
      · simp only [packScan, h1, if_false, if_pos h2, Bool.false_eq_true] at hp
        rcases List.mem_cons.mp hp with rfl | hp
        · exact Bool.not_eq_true _ ▸ (Bool.eq_false_iff.mpr h1)
        · have hrec := ih (u.set i true) _ _ p hp
          by_cases hij : i = p.1
          · rw [hij] at hrec
            rw [goGetD_set_true] at hrec
            exact absurd hrec (by simp)
          · rwa [goGetD_set_ne u i p.1 true true hij] at hrec
      · simp only [packScan, h1, if_false, if_neg h2, Bool.false_eq_true] at hp
        exact ih u rc rm p hp

theorem packScan_fst_nodup : ∀ (items : List (Nat × WorkloadProfile)) (u : List Bool)
    (rc : Int) (rm : ℚ), ((packScan items u rc rm).packed.map Prod.fst).Nodup := by
  intro items
  induction items with
  | nil => intro u rc rm; simp [packScan]
  | cons q rest ih =>
    intro u rc rm
    obtain ⟨i, w⟩ := q
    by_cases h1 : u.getD i true = true
    · simp only [packScan, h1, if_true]
      exact ih u rc rm
    · by_cases h2 : w.CPURequirements ≤ rc ∧ w.MemoryRequirements ≤ rm
      · simp only [packScan, h1, if_false, if_pos h2, Bool.false_eq_true, List.map_cons]
        refine List.nodup_cons.mpr ⟨?_, ih _ _ _⟩
        intro hmem
        obtain ⟨p, hp, hfst⟩ := List.mem_map.mp hmem
        have := packScan_flag_false rest (u.set i true) _ _ p hp
        rw [hfst] at this
        rw [goGetD_set_true] at this
        simp at this
      · simp only [packScan, h1, if_false, if_neg h2, Bool.false_eq_true]
        exact ih u rc rm

theorem packScan_flag_mono : ∀ (items : List (Nat × WorkloadProfile)) (u : List Bool)
    (rc : Int) (rm : ℚ) (j : Nat), u.getD j true = true →
    (packScan items u rc rm).flags.getD j true = true := by
  intro items
  induction items with
  | nil => intro u rc rm j h; exact h
  | cons q rest ih =>
    intro u rc rm j h
    obtain ⟨i, w⟩ := q
    by_cases h1 : u.getD i true = true
    · simp only [packScan, h1, if_true]
      exact ih u rc rm j h
    · by_cases h2 : w.CPURequirements ≤ rc ∧ w.MemoryRequirements ≤ rm
      · simp only [packScan, h1, if_false, if_pos h2, Bool.false_eq_true]
        refine ih (u.set i true) _ _ j ?_
        by_cases hij : i = j
        · rw [hij]; exact goGetD_set_true u j
        · rwa [goGetD_set_ne u i j true true hij]
      · simp only [packScan, h1, if_false, if_neg h2, Bool.false_eq_true]
        exact ih u rc rm j h

theorem packScan_flag_set : ∀ (items : List (Nat × WorkloadProfile)) (u : List Bool)
    (rc : Int) (rm : ℚ), ∀ p ∈ (packScan items u rc rm).packed,
    (packScan items u rc rm).flags.getD p.1 true = true := by
  intro items
  induction items with
  | nil => intro u rc rm p hp; simp [packScan] at hp
  | cons q rest ih =>
    intro u rc rm p hp
    obtain ⟨i, w⟩ := q
    by_cases h1 : u.getD i true = true
    · simp only [packScan, h1, if_true] at hp ⊢
      exact ih u rc rm p hp
    · by_cases h2 : w.CPURequirements ≤ rc ∧ w.MemoryRequirements ≤ rm
      · simp only [packScan, h1, if_false, if_pos h2, Bool.false_eq_true] at hp ⊢
        rcases List.mem_cons.mp hp with rfl | hp
        · exact packScan_flag_mono rest (u.set i true) _ _ i (goGetD_set_true u i)
        · exact ih (u.set i true) _ _ p hp
      · simp only [packScan, h1, if_false, if_neg h2, Bool.false_eq_true] at hp ⊢
        exact ih u rc rm p hp

theorem packScan_fits : ∀ (items : List (Nat × WorkloadProfile)) (u : List Bool)
    (rc : Int) (rm : ℚ),
    (∀ p ∈ items, 0 ≤ p.2.CPURequirements ∧ 0 ≤ p.2.MemoryRequirements) →
    ∀ p ∈ (packScan items u rc rm).packed,
      p.2.CPURequirements ≤ rc ∧ p.2.MemoryRequirements ≤ rm := by
  intro items
  induction items with
  | nil => intro u rc rm _ p hp; simp [packScan] at hp
  | cons q rest ih =>
    intro u rc rm hpos p hp
    obtain ⟨i, w⟩ := q
    have hpos' : ∀ p ∈ rest, 0 ≤ p.2.CPURequirements ∧ 0 ≤ p.2.MemoryRequirements :=
      fun p hp => hpos p (List.mem_cons_of_mem _ hp)
    by_cases h1 : u.getD i true = true
    · simp only [packScan, h1, if_true] at hp
      exact ih u rc rm hpos' p hp
    · by_cases h2 : w.CPURequirements ≤ rc ∧ w.MemoryRequirements ≤ rm
      · simp only [packScan, h1, if_false, if_pos h2, Bool.false_eq_true] at hp
        rcases List.mem_cons.mp hp with rfl | hp
        · exact h2
        · have hw := hpos (i, w) (List.mem_cons_self _ _)
          have := ih (u.set i true) _ _ hpos' p hp
          exact ⟨by linarith [this.1, hw.1], by linarith [this.2, hw.2]⟩
      · simp only [packScan, h1, if_false, if_neg h2, Bool.false_eq_true] at hp
        exact ih u rc rm hpos' p hp

/-! ### Selector lemmas -/

theorem selectWithStrategy_eq_of_filtered_nil (candidates : List AzureInstanceSpec)
    (w : WorkloadProfile) (strategy : SelectionStrategy)
    (h : FilterInstanceTypes candidates w standardFilters = []) :
    selectWithStrategy candidates w strategy = (emptySpec, -1) := by
  simp only [selectWithStrategy, RankInstanceTypes, h, selectionSortBy, List.length_nil,
    selectionSortGo]

theorem selectWithStrategy_spec (candidates : List AzureInstanceSpec)
    (w : WorkloadProfile) (strategy : SelectionStrategy)
    (c : AzureInstanceSpec) (rest : List AzureInstanceSpec)
    (h : FilterInstanceTypes candidates w standardFilters = c :: rest) :
    ∃ l₁ l₂, c :: rest = l₁ ++ (selectWithStrategy candidates w strategy).1 :: l₂ ∧
      (∀ y ∈ l₁, ScoreInstance y w strategy < ScoreInstance (selectWithStrategy candidates w strategy).1 w strategy) ∧
      (∀ y ∈ c :: rest, ScoreInstance y w strategy ≤ ScoreInstance (selectWithStrategy candidates w strategy).1 w strategy) ∧
      (selectWithStrategy candidates w strategy).2 = ScoreInstance (selectWithStrategy candidates w strategy).1 w strategy := by
  obtain ⟨m, t, l₁, l₂, hsort, hsplit, hlt, hle⟩ :=
    selectionSortBy_head_firstMax (fun vm => ScoreInstance vm w strategy) c rest
  have hsel : selectWithStrategy candidates w strategy = (m, ScoreInstance m w strategy) := by
    simp only [selectWithStrategy, RankInstanceTypes, h, hsort]
  rw [hsel]
  exact ⟨l₁, l₂, hsplit, hlt, hle, rfl⟩

/-- A non-sentinel selection result is a member of the filtered candidates. -/
theorem selectWithStrategy_mem (candidates : List AzureInstanceSpec)
    (w : WorkloadProfile) (strategy : SelectionStrategy)
    (h : (selectWithStrategy candidates w strategy).1.Name ≠ "") :
    (selectWithStrategy candidates w strategy).1 ∈ candidates := by
  cases hf : FilterInstanceTypes candidates w standardFilters with
  | nil =>
    rw [selectWithStrategy_eq_of_filtered_nil candidates w strategy hf] at h
    exact absurd rfl h
  | cons c rest =>
    obtain ⟨l₁, l₂, hsplit, _, _, _⟩ := selectWithStrategy_spec candidates w strategy c rest hf
    have hmem : (selectWithStrategy candidates w strategy).1 ∈ c :: rest := by
      rw [hsplit]
      exact List.mem_append.mpr (Or.inr (List.mem_cons_self _ _))
    have := hf ▸ hmem
    exact List.filter_subset' candidates this

/-! ### Non-quota packing-loop invariants -/

/-- All (position, workload) pairs assigned across an accumulated result. -/
def joinIdx (acc : List PackedVMIdx) : List (Nat × WorkloadProfile) :=
  (acc.map Prod.snd).flatten

theorem joinIdx_cons (v : PackedVMIdx) (acc : List PackedVMIdx) :
    joinIdx (v :: acc) = v.2 ++ joinIdx acc := by
  simp [joinIdx]

theorem joinIdx_reverse_perm (acc : List PackedVMIdx) :
    List.Perm (joinIdx acc.reverse) (joinIdx acc) := by
  induction acc with
  | nil => simp [joinIdx]
  | cons v t ih =>
    have h1 : joinIdx ((v :: t).reverse) = joinIdx t.reverse ++ v.2 := by
      simp [joinIdx]
    rw [h1, joinIdx_cons]
    exact (List.perm_append_comm).trans (List.Perm.append_left v.2 ih)

theorem joinIdx_reverse_nodup (acc : List PackedVMIdx)
    (h : ((joinIdx acc).map Prod.fst).Nodup) : ((joinIdx acc.reverse).map Prod.fst).Nodup :=
  (((joinIdx_reverse_perm acc).map Prod.fst).nodup_iff).mpr h

theorem joinIdx_reverse_mem (acc : List PackedVMIdx) (p : Nat × WorkloadProfile)
    (h : p ∈ joinIdx acc.reverse) : p ∈ joinIdx acc :=
  (joinIdx_reverse_perm acc).mem_iff.mp h

theorem packLoop_conserve (candidates : List AzureInstanceSpec)
    (strategy : SelectionStrategy) (sorted : List WorkloadProfile)
    (hc : ∀ c ∈ candidates, 0 ≤ c.VCpus ∧ 0 ≤ c.MemoryGiB) :
    ∀ (fuel : Nat) (u : List Bool) (acc res : List PackedVMIdx),
      packLoop candidates strategy sorted fuel u acc = some res →
      (∀ vm ∈ acc, sumCpu (vm.2.map Prod.snd) ≤ vm.1.VCpus ∧
        sumMem (vm.2.map Prod.snd) ≤ vm.1.MemoryGiB) →
      ∀ vm ∈ res, sumCpu (vm.2.map Prod.snd) ≤ vm.1.VCpus ∧
        sumMem (vm.2.map Prod.snd) ≤ vm.1.MemoryGiB := by
  intro fuel
  induction fuel with
  | zero => intro u acc res h; exact absurd h (by simp [packLoop])
  | succ n ih =>
    intro u acc res h hacc
    rw [packLoop] at h
    cases hfu : firstUnpacked u with
    | none =>
      rw [hfu] at h
      simp only [Option.some.injEq] at h
      subst h
      intro vm hvm
      exact hacc vm (List.mem_reverse.mp hvm)
    | some i =>
      rw [hfu] at h
      simp only at h
      by_cases hb : (selectWithStrategy candidates (sorted.getD i default) strategy).1.Name = ""
      · rw [if_pos hb] at h
        simp only [Option.some.injEq] at h
        subst h
        intro vm hvm
        exact hacc vm (List.mem_reverse.mp hvm)
      · rw [if_neg hb] at h
        refine ih _ _ _ h ?_
        intro vm hvm
        rcases List.mem_cons.mp hvm with rfl | hvm
        · have hbest := selectWithStrategy_mem candidates (sorted.getD i default) strategy hb
          have hcap := hc _ hbest
          have hsum := packScan_sum sorted.enum u
            (selectWithStrategy candidates (sorted.getD i default) strategy).1.VCpus
            (selectWithStrategy candidates (sorted.getD i default) strategy).1.MemoryGiB
          have hnn := packScan_nonneg sorted.enum u
            (selectWithStrategy candidates (sorted.getD i default) strategy).1.VCpus
            (selectWithStrategy candidates (sorted.getD i default) strategy).1.MemoryGiB
            hcap.1 hcap.2
          exact ⟨by linarith [hsum.1, hnn.1], by linarith [hsum.2, hnn.2]⟩
        · exact hacc vm hvm

theorem packLoop_pairs (candidates : List AzureInstanceSpec)
    (strategy : SelectionStrategy) (sorted : List WorkloadProfile) :
    ∀ (fuel : Nat) (u : List Bool) (acc res : List PackedVMIdx),
      packLoop candidates strategy sorted fuel u acc = some res →
      ((joinIdx acc).map Prod.fst).Nodup →
      (∀ p ∈ joinIdx acc, p ∈ sorted.enum) →
      (∀ p ∈ joinIdx acc, u.getD p.1 true = true) →
      ((joinIdx res).map Prod.fst).Nodup ∧ ∀ p ∈ joinIdx res, p ∈ sorted.enum := by
  intro fuel
  induction fuel with
  | zero => intro u acc res h; exact absurd h (by simp [packLoop])
  | succ n ih =>
    intro u acc res h hnd hmem hflag
    rw [packLoop] at h
    cases hfu : firstUnpacked u with
    | none =>
      rw [hfu] at h
      simp only [Option.some.injEq] at h
      subst h
      constructor
      · exact joinIdx_reverse_nodup acc hnd
      · intro p hp
        exact hmem p (joinIdx_reverse_mem acc p hp)
    | some i =>
      rw [hfu] at h
      simp only at h
      by_cases hb : (selectWithStrategy candidates (sorted.getD i default) strategy).1.Name = ""
      · rw [if_pos hb] at h
        simp only [Option.some.injEq] at h
        subst h
        constructor
        · exact joinIdx_reverse_nodup acc hnd
        · intro p hp
          exact hmem p (joinIdx_reverse_mem acc p hp)
      · rw [if_neg hb] at h
        set best := (selectWithStrategy candidates (sorted.getD i default) strategy).1 with hbest
        refine ih _ _ _ h ?_ ?_ ?_
        · rw [joinIdx_cons, List.map_append]
          refine List.Nodup.append (packScan_fst_nodup _ _ _ _) hnd ?_
          intro j hj₁ hj₂
          obtain ⟨p₁, hp₁, hp₁j⟩ := List.mem_map.mp hj₁
          obtain ⟨p₂, hp₂, hp₂j⟩ := List.mem_map.mp hj₂
          have hfalse := packScan_flag_false sorted.enum u best.VCpus best.MemoryGiB p₁ hp₁
          have htrue := hflag p₂ hp₂
          rw [hp₁j] at hfalse
          rw [hp₂j] at htrue
          rw [hfalse] at htrue
          exact Bool.false_ne_true htrue
        · intro p hp
          rw [joinIdx_cons] at hp
          rcases List.mem_append.mp hp with hp | hp
          · exact packScan_mem _ _ _ _ p hp
          · exact hmem p hp
        · intro p hp
          rw [joinIdx_cons] at hp
          rcases List.mem_append.mp hp with hp | hp
          · exact packScan_flag_set _ _ _ _ p hp
          · exact packScan_flag_mono _ _ _ _ _ (hflag p hp)

theorem packLoop_stuck (candidates : List AzureInstanceSpec)
    (strategy : SelectionStrategy) (sorted : List WorkloadProfile)
    (u : List Bool) (i : Nat)
    (hfu : firstUnpacked u = some i)
    (hb : ¬ (selectWithStrategy candidates (sorted.getD i default) strategy).1.Name = "")
    (hps : (packScan sorted.enum u
      (selectWithStrategy candidates (sorted.getD i default) strategy).1.VCpus
      (selectWithStrategy candidates (sorted.getD i default) strategy).1.MemoryGiB).packed = []) :
    ∀ (fuel : Nat) (acc : List PackedVMIdx),
      packLoop candidates strategy sorted fuel u acc = none := by
  intro fuel
  induction fuel with
  | zero => intro acc; simp [packLoop]
  | succ n ih =>
    intro acc
    rw [packLoop, hfu]
    simp only [if_neg hb]
    rw [packScan_nil_flags _ _ _ _ hps]
    exact ih _

theorem packLoop_nonempty (candidates : List AzureInstanceSpec)
    (strategy : SelectionStrategy) (sorted : List WorkloadProfile) :
    ∀ (fuel : Nat) (u : List Bool) (acc res : List PackedVMIdx),
      packLoop candidates strategy sorted fuel u acc = some res →
      (∀ vm ∈ acc, vm.2 ≠ []) →
      ∀ vm ∈ res, vm.2 ≠ [] := by
  intro fuel
  induction fuel with
  | zero => intro u acc res h; exact absurd h (by simp [packLoop])
  | succ n ih =>
    intro u acc res h hacc
    rw [packLoop] at h
    cases hfu : firstUnpacked u with
    | none =>
      rw [hfu] at h
      simp only [Option.some.injEq] at h
      subst h
      intro vm hvm
      exact hacc vm (List.mem_reverse.mp hvm)
    | some i =>
      rw [hfu] at h
      simp only at h
      by_cases hb : (selectWithStrategy candidates (sorted.getD i default) strategy).1.Name = ""
      · rw [if_pos hb] at h
        simp only [Option.some.injEq] at h
        subst h
        intro vm hvm
        exact hacc vm (List.mem_reverse.mp hvm)
      · rw [if_neg hb] at h
        by_cases hps : (packScan sorted.enum u
            (selectWithStrategy candidates (sorted.getD i default) strategy).1.VCpus
            (selectWithStrategy candidates (sorted.getD i default) strategy).1.MemoryGiB).packed = []
        · rw [packScan_nil_flags _ _ _ _ hps] at h
          rw [packLoop_stuck candidates strategy sorted u i hfu hb hps n _] at h
          exact absurd h (by simp)
        · refine ih _ _ _ h ?_
          intro vm hvm
          rcases List.mem_cons.mp hvm with rfl | hvm
          · exact hps
          · exact hacc vm hvm

/-- Does some candidate machine have raw CPU and memory capacity for `w`? -/
def fitsSomeB (candidates : List AzureInstanceSpec) (w : WorkloadProfile) : Bool :=
  candidates.any (fun c => decide (w.CPURequirements ≤ c.VCpus) &&
    decide (w.MemoryRequirements ≤ c.MemoryGiB))

theorem packLoop_fitsSome (candidates : List AzureInstanceSpec)
    (strategy : SelectionStrategy) (sorted : List WorkloadProfile)
    (hw : ∀ p ∈ sorted.enum, 0 ≤ p.2.CPURequirements ∧ 0 ≤ p.2.MemoryRequirements) :
    ∀ (fuel : Nat) (u : List Bool) (acc res : List PackedVMIdx),
      packLoop candidates strategy sorted fuel u acc = some res →
      (∀ p ∈ joinIdx acc, fitsSomeB candidates p.2 = true) →
      ∀ p ∈ joinIdx res, fitsSomeB candidates p.2 = true := by
  intro fuel
  induction fuel with
  | zero => intro u acc res h; exact absurd h (by simp [packLoop])
  | succ n ih =>
    intro u acc res h hacc
    rw [packLoop] at h
    cases hfu : firstUnpacked u with
    | none =>
      rw [hfu] at h
      simp only [Option.some.injEq] at h
      subst h
      intro p hp
      exact hacc p (joinIdx_reverse_mem acc p hp)
    | some i =>
      rw [hfu] at h
      simp only at h
      by_cases hb : (selectWithStrategy candidates (sorted.getD i default) strategy).1.Name = ""
      · rw [if_pos hb] at h
        simp only [Option.some.injEq] at h
        subst h
        intro p hp
        exact hacc p (joinIdx_reverse_mem acc p hp)
      · rw [if_neg hb] at h
        refine ih _ _ _ h ?_
        intro p hp
        rw [joinIdx_cons] at hp
        rcases List.mem_append.mp hp with hp | hp
        · have hfit := packScan_fits sorted.enum u _ _ hw p hp
          have hbest := selectWithStrategy_mem candidates (sorted.getD i default) strategy hb
          refine List.any_eq_true.mpr ⟨_, hbest, ?_⟩
          simp only [Bool.and_eq_true, decide_eq_true_eq]
          exact hfit
        · exact hacc p hp

/-! ### Quota packing-loop invariants -/

/-- Cumulative committed vCPUs per family over an instrumented result. -/
def famVCpusIdx (l : List PackedVMIdx) (fam : String) : Int :=
  (l.map (fun vm => if vm.1.Family = fam then vm.1.VCpus else 0)).sum

theorem famVCpusIdx_reverse (l : List PackedVMIdx) (fam : String) :
    famVCpusIdx l.reverse fam = famVCpusIdx l fam := by
  simp [famVCpusIdx, List.map_reverse, List.sum_reverse]

theorem famVCpusIdx_cons (v : PackedVMIdx) (l : List PackedVMIdx) (fam : String) :
    famVCpusIdx (v :: l) fam =
      (if v.1.Family = fam then v.1.VCpus else 0) + famVCpusIdx l fam := by
  simp [famVCpusIdx]

theorem quotaPackLoop_conserve (strategy : SelectionStrategy)
    (sorted : List WorkloadProfile) (quota : Option QuotaMap) :
    ∀ (fuel : Nat) (candidates : List AzureInstanceSpec) (u : List Bool)
      (used : String → Int) (acc res : List PackedVMIdx),
      quotaPackLoop strategy sorted quota fuel candidates u used acc = some res →
      (∀ c ∈ candidates, 0 ≤ c.VCpus ∧ 0 ≤ c.MemoryGiB) →
      (∀ vm ∈ acc, sumCpu (vm.2.map Prod.snd) ≤ vm.1.VCpus ∧
        sumMem (vm.2.map Prod.snd) ≤ vm.1.MemoryGiB) →
      ∀ vm ∈ res, sumCpu (vm.2.map Prod.snd) ≤ vm.1.VCpus ∧
        sumMem (vm.2.map Prod.snd) ≤ vm.1.MemoryGiB := by
  intro fuel
  induction fuel with
  | zero => intro cs u used acc res h; exact absurd h (by simp [quotaPackLoop])
  | succ n ih =>
    intro cs u used acc res h hc hacc
    rw [quotaPackLoop] at h
    cases hfu : firstUnpacked u with
    | none =>
      rw [hfu] at h
      simp only [Option.some.injEq] at h
      subst h
      intro vm hvm
      exact hacc vm (List.mem_reverse.mp hvm)
    | some i =>
      rw [hfu] at h
      simp only at h
      by_cases hb : (selectWithStrategy cs (sorted.getD i default) strategy).1.Name = ""
      · rw [if_pos hb] at h
        simp only [Option.some.injEq] at h
        subst h
        intro vm hvm
        exact hacc vm (List.mem_reverse.mp hvm)
      · rw [if_neg hb] at h
        by_cases hq : quotaBlocked quota
            (selectWithStrategy cs (sorted.getD i default) strategy).1.Family used
            (selectWithStrategy cs (sorted.getD i default) strategy).1.VCpus = true
        · rw [if_pos hq] at h
          refine ih _ _ _ _ _ h ?_ hacc
          intro c hcmem
          exact hc c (List.filter_subset' cs hcmem)
        · rw [if_neg hq] at h
          refine ih _ _ _ _ _ h hc ?_
          intro vm hvm
          rcases List.mem_cons.mp hvm with rfl | hvm
          · have hbest := selectWithStrategy_mem cs (sorted.getD i default) strategy hb
            have hcap := hc _ hbest
            have hsum := packScan_sum sorted.enum u
              (selectWithStrategy cs (sorted.getD i default) strategy).1.VCpus
              (selectWithStrategy cs (sorted.getD i default) strategy).1.MemoryGiB
            have hnn := packScan_nonneg sorted.enum u
              (selectWithStrategy cs (sorted.getD i default) strategy).1.VCpus
              (selectWithStrategy cs (sorted.getD i default) strategy).1.MemoryGiB
              hcap.1 hcap.2
            exact ⟨by linarith [hsum.1, hnn.1], by linarith [hsum.2, hnn.2]⟩
          · exact hacc vm hvm

theorem quotaPackLoop_pairs (strategy : SelectionStrategy)
    (sorted : List WorkloadProfile) (quota : Option QuotaMap) :
    ∀ (fuel : Nat) (candidates : List AzureInstanceSpec) (u : List Bool)
      (used : String → Int) (acc res : List PackedVMIdx),
      quotaPackLoop strategy sorted quota fuel candidates u used acc = some res →
      ((joinIdx acc).map Prod.fst).Nodup →
      (∀ p ∈ joinIdx acc, p ∈ sorted.enum) →
      (∀ p ∈ joinIdx acc, u.getD p.1 true = true) →
      ((joinIdx res).map Prod.fst).Nodup ∧ ∀ p ∈ joinIdx res, p ∈ sorted.enum := by
  intro fuel
  induction fuel with
  | zero => intro cs u used acc res h; exact absurd h (by simp [quotaPackLoop])
  | succ n ih =>
    intro cs u used acc res h hnd hmem hflag
    rw [quotaPackLoop] at h
    cases hfu : firstUnpacked u with
    | none =>
      rw [hfu] at h
      simp only [Option.some.injEq] at h
      subst h
      exact ⟨joinIdx_reverse_nodup acc hnd, fun p hp => hmem p (joinIdx_reverse_mem acc p hp)⟩
    | some i =>
      rw [hfu] at h
      simp only at h
      by_cases hb : (selectWithStrategy cs (sorted.getD i default) strategy).1.Name = ""
      · rw [if_pos hb] at h
        simp only [Option.some.injEq] at h
        subst h
        exact ⟨joinIdx_reverse_nodup acc hnd, fun p hp => hmem p (joinIdx_reverse_mem acc p hp)⟩
      · rw [if_neg hb] at h
        by_cases hq : quotaBlocked quota
            (selectWithStrategy cs (sorted.getD i default) strategy).1.Family used
            (selectWithStrategy cs (sorted.getD i default) strategy).1.VCpus = true
        · rw [if_pos hq] at h
          exact ih _ _ _ _ _ h hnd hmem hflag
        · rw [if_neg hq] at h
          refine ih _ _ _ _ _ h ?_ ?_ ?_
          · rw [joinIdx_cons, List.map_append]
            refine List.Nodup.append (packScan_fst_nodup _ _ _ _) hnd ?_
            intro j hj₁ hj₂
            obtain ⟨p₁, hp₁, hp₁j⟩ := List.mem_map.mp hj₁
            obtain ⟨p₂, hp₂, hp₂j⟩ := List.mem_map.mp hj₂
            have hfalse := packScan_flag_false sorted.enum u
              (selectWithStrategy cs (sorted.getD i default) strategy).1.VCpus
              (selectWithStrategy cs (sorted.getD i default) strategy).1.MemoryGiB p₁ hp₁
            have htrue := hflag p₂ hp₂
            rw [hp₁j] at hfalse
            rw [hp₂j] at htrue
            rw [hfalse] at htrue
            exact Bool.false_ne_true htrue
          · intro p hp
            rw [joinIdx_cons] at hp
            rcases List.mem_append.mp hp with hp | hp
            · exact packScan_mem _ _ _ _ p hp
            · exact hmem p hp
          · intro p hp
            rw [joinIdx_cons] at hp
            rcases List.mem_append.mp hp with hp | hp
            · exact packScan_flag_set _ _ _ _ p hp
            · exact packScan_flag_mono _ _ _ _ _ (hflag p hp)

theorem quotaPackLoop_quota (strategy : SelectionStrategy)
    (sorted : List WorkloadProfile) (q : QuotaMap) :
    ∀ (fuel : Nat) (candidates : List AzureInstanceSpec) (u : List Bool)
      (used : String → Int) (acc res : List PackedVMIdx),
      quotaPackLoop strategy sorted (some q) fuel candidates u used acc = some res →
      (∀ fam, 0 < qlookup q fam → used fam ≤ qlookup q fam) →
      (∀ fam, famVCpusIdx acc fam = used fam) →
      ∀ fam, 0 < qlookup q fam → famVCpusIdx res fam ≤ qlookup q fam := by
  intro fuel
  induction fuel with
  | zero => intro cs u used acc res h; exact absurd h (by simp [quotaPackLoop])
  | succ n ih =>
    intro cs u used acc res h hused hacc
    rw [quotaPackLoop] at h
    cases hfu : firstUnpacked u with
    | none =>
      rw [hfu] at h
      simp only [Option.some.injEq] at h
      subst h
      intro fam hq
      rw [famVCpusIdx_reverse, hacc fam]
      exact hused fam hq
    | some i =>
      rw [hfu] at h
      simp only at h
      by_cases hb : (selectWithStrategy cs (sorted.getD i default) strategy).1.Name = ""
      · rw [if_pos hb] at h
        simp only [Option.some.injEq] at h
        subst h
        intro fam hq
        rw [famVCpusIdx_reverse, hacc fam]
        exact hused fam hq
      · rw [if_neg hb] at h
        by_cases hblk : quotaBlocked (some q)
            (selectWithStrategy cs (sorted.getD i default) strategy).1.Family used
            (selectWithStrategy cs (sorted.getD i default) strategy).1.VCpus = true
        · rw [if_pos hblk] at h
          exact ih _ _ _ _ _ h hused hacc
        · rw [if_neg hblk] at h
          set best := (selectWithStrategy cs (sorted.getD i default) strategy).1 with hbestdef
          have hnotblk : ¬ (0 < qlookup q best.Family ∧
              qlookup q best.Family < used best.Family + best.VCpus) := by
            intro hcontra
            apply hblk
            simp only [quotaBlocked, Bool.and_eq_true, decide_eq_true_eq]
            exact hcontra
          refine ih _ _ _ _ _ h ?_ ?_
          · intro fam hq
            by_cases hfam : fam = best.Family
            · rw [if_pos hfam]
              rw [hfam] at hq ⊢
              rcases not_and_or.mp hnotblk with hcase | hcase
              · exact absurd hq hcase
              · omega
            · rw [if_neg hfam]
              exact hused fam hq
          · intro fam
            rw [famVCpusIdx_cons, hacc fam]
            by_cases hfam : fam = best.Family
            · rw [if_pos hfam.symm, if_pos hfam]
              exact Int.add_comm _ _
            · rw [if_neg (fun hc => hfam hc.symm), if_neg hfam]
              omega

/-! ### Support lemmas for the claim theorems -/

theorem firstUnpacked_getD : ∀ (u : List Bool) (i : Nat),
    firstUnpacked u = some i → u.getD i true = false := by
  intro u
  induction u with
  | nil => intro i h; simp [firstUnpacked] at h
  | cons b bs ih =>
    intro i h
    cases b with
    | true =>
      simp only [firstUnpacked, if_true] at h
      obtain ⟨j, hj, hji⟩ := Option.map_eq_some'.mp h
      rw [← hji]
      exact ih j hj
    | false =>
      simp only [firstUnpacked, if_false, Bool.false_eq_true, Option.some.injEq] at h
      rw [← h]
      rfl

theorem subperm_map {α β : Type} (f : α → β) {l₁ l₂ : List α} (h : List.Subperm l₁ l₂) :
    List.Subperm (l₁.map f) (l₂.map f) := by
  obtain ⟨l, hperm, hsub⟩ := h
  exact ⟨l.map f, hperm.map f, hsub.map f⟩

theorem length_le_joinIdx_length : ∀ (l : List PackedVMIdx),
    (∀ vm ∈ l, vm.2 ≠ []) → l.length ≤ (joinIdx l).length := by
  intro l
  induction l with
  | nil => intro _; simp [joinIdx]
  | cons v t ih =>
    intro h
    rw [joinIdx_cons, List.length_append, List.length_cons]
    have h1 : 0 < v.2.length := List.length_pos.mpr (h v (List.mem_cons_self _ _))
    have h2 := ih (fun vm hvm => h vm (List.mem_cons_of_mem _ hvm))
    omega

theorem mem_enumFrom_snd {α : Type} : ∀ (l : List α) (k : Nat) (p : Nat × α),
    p ∈ List.enumFrom k l → p.2 ∈ l := by
  intro l
  induction l with
  | nil => intro k p h; simp [List.enumFrom] at h
  | cons a t ih =>
    intro k p h
    rw [List.enumFrom] at h
    rcases List.mem_cons.mp h with rfl | h
    · exact List.mem_cons_self _ _
    · exact List.mem_cons_of_mem _ (ih (k + 1) p h)

theorem enumFrom_map_snd {α : Type} : ∀ (l : List α) (k : Nat),
    (List.enumFrom k l).map Prod.snd = l := by
  intro l
  induction l with
  | nil => intro k; rfl
  | cons a t ih =>
    intro k
    rw [List.enumFrom, List.map_cons, ih (k + 1)]

theorem length_filter_enumFrom {α : Type} (f : α → Bool) :
    ∀ (l : List α) (k : Nat),
      ((List.enumFrom k l).filter (fun p => f p.2)).length = (l.filter f).length := by
  intro l
  induction l with
  | nil => intro k; rfl
  | cons a t ih =>
    intro k
    rw [List.enumFrom]
    by_cases hf : f a = true
    · simp only [List.filter_cons, hf, if_true, List.length_cons, ih]
    · simp only [List.filter_cons, hf, Bool.false_eq_true, if_false, ih]

theorem length_filterMap_isSome {α β : Type} (g : α → Option β) :
    ∀ (l : List α), (l.filterMap g).length = (l.filter (fun a => (g a).isSome)).length := by
  intro l
  induction l with
  | nil => rfl
  | cons a t ih =>
    cases hg : g a with
    | none => simp [List.filterMap_cons, hg, List.filter_cons, ih]
    | some b => simp [List.filterMap_cons, hg, List.filter_cons, ih]

theorem naiveScan_some : ∀ (rest : List AzureInstanceSpec) (w : WorkloadProfile)
    (b : AzureInstanceSpec), (naiveScan w rest (some b)).isSome = true := by
  intro rest
  induction rest with
  | nil => intro w b; rfl
  | cons vm t ih =>
    intro w b
    rw [naiveScan]
    by_cases h1 : w.CPURequirements ≤ vm.VCpus ∧ w.MemoryRequirements ≤ vm.MemoryGiB
    · rw [if_pos h1]
      by_cases h2 : vm.VCpus < b.VCpus ∨ (vm.VCpus = b.VCpus ∧ vm.MemoryGiB < b.MemoryGiB)
      · simp only [if_pos h2]
        exact ih w vm
      · simp only [if_neg h2]
        exact ih w b
    · rw [if_neg h1]
      exact ih w b

theorem naiveScan_none_isSome : ∀ (cands : List AzureInstanceSpec) (w : WorkloadProfile),
    (naiveScan w cands none).isSome = fitsSomeB cands w := by
  intro cands
  induction cands with
  | nil => intro w; rfl
  | cons vm t ih =>
    intro w
    rw [naiveScan]
    by_cases h1 : w.CPURequirements ≤ vm.VCpus ∧ w.MemoryRequirements ≤ vm.MemoryGiB
    · rw [if_pos h1, naiveScan_some]
      have hfit : (decide (w.CPURequirements ≤ vm.VCpus) &&
          decide (w.MemoryRequirements ≤ vm.MemoryGiB)) = true := by
        simp [h1.1, h1.2]
      simp [fitsSomeB, List.any_cons, hfit]
    · rw [if_neg h1, ih w]
      have hfit : (decide (w.CPURequirements ≤ vm.VCpus) &&
          decide (w.MemoryRequirements ≤ vm.MemoryGiB)) = false := by
        rcases not_and_or.mp h1 with hc | hc <;> simp [hc]
      simp [fitsSomeB, List.any_cons, hfit]

theorem BinPackWorkloadsNaive_length (ws : List WorkloadProfile)
    (cands : List AzureInstanceSpec) :
    (BinPackWorkloadsNaive ws cands).VMs.length =
      (ws.filter (fun w => fitsSomeB cands w)).length := by
  show (ws.filterMap _).length = _
  rw [length_filterMap_isSome]
  congr 1
  apply List.filter_congr
  intro w _
  rw [Option.isSome_map']
  exact naiveScan_none_isSome cands w

/-! ### Concrete fixtures used by witnesses and counterexamples -/

/-- A workload with every field at its zero value. -/
def zeroWorkload : WorkloadProfile :=
  { CPURequirements := 0, MemoryRequirements := 0, IORequirements := 0,
    GPURequirements := 0, GPUType := "", Zone := "", RequireEphemeralOS := false,
    RequireNestedVirt := false, RequireSpot := false, RequireConfidential := false,
    Capabilities := [] }

/-- A small machine: 1 vCPU, 8 GiB. -/
def exMachineA : AzureInstanceSpec :=
  { emptySpec with Name := "a", VCpus := 1, MemoryGiB := 8, PricePerHour := 1 }

/-- A machine of family `F`: 4 vCPUs, 8 GiB. -/
def exMachineF : AzureInstanceSpec :=
  { emptySpec with
    Name := "f", VCpus := 4, MemoryGiB := 8, Family := "F", PricePerHour := 1 }

/-- A workload asking for 2 CPUs (more than `exMachineA` has). -/
def exBigWorkload : WorkloadProfile :=
  { zeroWorkload with CPURequirements := 2 }

/-- A workload asking for 1 CPU and 1 GiB. -/
def exSmallWorkload : WorkloadProfile :=
  { zeroWorkload with CPURequirements := 1, MemoryRequirements := 1 }

/-- A workload pinned to zone 3 (no fixture machine serves it). -/
def exZoneWorkload : WorkloadProfile :=
  { zeroWorkload with Zone := "3" }

/-- Demand-5 workload (first of the tied pair). -/
def exP1 : WorkloadProfile :=
  { zeroWorkload with CPURequirements := 5, Zone := "p1" }

/-- Demand-5 workload (second of the tied pair, different split). -/
def exP2 : WorkloadProfile :=
  { zeroWorkload with CPURequirements := 4, MemoryRequirements := 1, Zone := "p2" }

/-- Demand-9 workload. -/
def exB1 : WorkloadProfile :=
  { zeroWorkload with CPURequirements := 9, Zone := "b1" }

/-- Demand-9 workload. -/
def exB2 : WorkloadProfile :=
  { zeroWorkload with CPURequirements := 9, Zone := "b2" }

/-- Tie machines with identical score, distinct names. -/
def exTwin1 : AzureInstanceSpec :=
  { exMachineA with Name := "t1" }

/-- Second tie machine, listed after `exTwin1`. -/
def exTwin2 : AzureInstanceSpec :=
  { exMachineA with Name := "t2" }

/-- The result of packing two small workloads on `exMachineA`. -/
def exRes1 : PackingResult :=
  ⟨[⟨exMachineA, [exSmallWorkload]⟩, ⟨exMachineA, [exSmallWorkload]⟩]⟩

/-- The result of quota-packing one small workload on `exMachineF`. -/
def exResQ : PackingResult :=
  ⟨[⟨exMachineF, [exSmallWorkload]⟩]⟩

/-! ### Fit formula lemmas (claim C3) -/

theorem goMin_eq_min (a b : ℚ) : goMin a b = min a b := by
  unfold goMin
  rcases lt_or_ge a b with h | h
  · rw [if_pos h, min_eq_left h.le]
  · rw [if_neg (not_lt_of_ge h), min_eq_right h]

/-- The spec-side per-dimension fit formula (from the spec's words):
the ratio capacity/requirement capped at 1, and exactly 1 when the
requirement is 0. -/
def specDimFit (cap req : ℚ) : ℚ :=
  if req = 0 then 1 else min (cap / req) 1

theorem cpuFit_eq_spec (vm : AzureInstanceSpec) (w : WorkloadProfile) :
    cpuFit vm w = specDimFit (vm.VCpus : ℚ) (w.CPURequirements : ℚ) := by
  by_cases h : w.CPURequirements = 0
  · simp [cpuFit, specDimFit, h]
  · simp [cpuFit, specDimFit, h, goMin_eq_min, Int.cast_eq_zero]

theorem memFit_eq_spec (vm : AzureInstanceSpec) (w : WorkloadProfile) :
    memFit vm w = specDimFit vm.MemoryGiB w.MemoryRequirements := by
  by_cases h : w.MemoryRequirements = 0
  · simp [memFit, specDimFit, h]
  · simp [memFit, specDimFit, h, goMin_eq_min]

theorem ioFit_eq_spec (vm : AzureInstanceSpec) (w : WorkloadProfile) :
    ioFit vm w = specDimFit vm.StorageGiB w.IORequirements := by
  by_cases h : w.IORequirements = 0
  · simp [ioFit, specDimFit, h]
  · simp [ioFit, specDimFit, h, goMin_eq_min]

theorem specDimFit_le_one (cap req : ℚ) : specDimFit cap req ≤ 1 := by
  unfold specDimFit
  by_cases h : req = 0
  · simp [h]
  · rw [if_neg h]
    exact min_le_right _ _

theorem specDimFit_nonneg (cap req : ℚ) (hcap : 0 ≤ cap) (hreq : 0 ≤ req) :
    0 ≤ specDimFit cap req := by
  unfold specDimFit
  by_cases h : req = 0
  · simp [h]
  · rw [if_neg h]
    exact le_min (div_nonneg hcap hreq) zero_le_one

theorem ComputeFit_eq_min (vm : AzureInstanceSpec) (w : WorkloadProfile) :
    ComputeFit vm w = min (min (cpuFit vm w) (memFit vm w)) (ioFit vm w) := by
  have h1 : cpuFit vm w ≤ 1 := by rw [cpuFit_eq_spec]; exact specDimFit_le_one _ _
  have h2 : memFit vm w ≤ 1 := by rw [memFit_eq_spec]; exact specDimFit_le_one _ _
  have h3 : ioFit vm w ≤ 1 := by rw [ioFit_eq_spec]; exact specDimFit_le_one _ _
  simp only [ComputeFit, min_def]
  split_ifs <;> linarith

/-! ### Claim theorems -/

/-- C3: for every machine and workload with non-negative requirements,
`ComputeFit` equals the minimum over the CPU, memory and IO dimensions of the
capacity/requirement ratio capped at 1 (a zero requirement contributing
exactly 1), and with non-negative capacities the result lies in [0, 1]. -/
theorem claim_C3_computeFit (vm : AzureInstanceSpec) (w : WorkloadProfile)
    (hreq : 0 ≤ w.CPURequirements ∧ 0 ≤ w.MemoryRequirements ∧ 0 ≤ w.IORequirements)
    (hcap : 0 ≤ vm.VCpus ∧ 0 ≤ vm.MemoryGiB ∧ 0 ≤ vm.StorageGiB) :
    ComputeFit vm w =
      min (min (specDimFit (vm.VCpus : ℚ) (w.CPURequirements : ℚ))
        (specDimFit vm.MemoryGiB w.MemoryRequirements))
        (specDimFit vm.StorageGiB w.IORequirements) ∧
    0 ≤ ComputeFit vm w ∧ ComputeFit vm w ≤ 1 := by
  have heq : ComputeFit vm w =
      min (min (specDimFit (vm.VCpus : ℚ) (w.CPURequirements : ℚ))
        (specDimFit vm.MemoryGiB w.MemoryRequirements))
        (specDimFit vm.StorageGiB w.IORequirements) := by
    rw [ComputeFit_eq_min, cpuFit_eq_spec, memFit_eq_spec, ioFit_eq_spec]
  refine ⟨heq, ?_, ?_⟩
  · rw [heq]
    have n1 := specDimFit_nonneg (vm.VCpus : ℚ) (w.CPURequirements : ℚ)
      (by exact_mod_cast hcap.1) (by exact_mod_cast hreq.1)
    have n2 := specDimFit_nonneg vm.MemoryGiB w.MemoryRequirements hcap.2.1 hreq.2.1
    have n3 := specDimFit_nonneg vm.StorageGiB w.IORequirements hcap.2.2 hreq.2.2
    exact le_min (le_min n1 n2) n3
  · rw [heq]
    exact le_trans (le_trans (min_le_left _ _) (min_le_left _ _)) (specDimFit_le_one _ _)

theorem claim_C3_computeFit_witness :
    ComputeFit exMachineA exBigWorkload =
      min (min (specDimFit (exMachineA.VCpus : ℚ) (exBigWorkload.CPURequirements : ℚ))
        (specDimFit exMachineA.MemoryGiB exBigWorkload.MemoryRequirements))
        (specDimFit exMachineA.StorageGiB exBigWorkload.IORequirements) ∧
    0 ≤ ComputeFit exMachineA exBigWorkload ∧ ComputeFit exMachineA exBigWorkload ≤ 1 :=
  claim_C3_computeFit exMachineA exBigWorkload (by decide) (by decide)

/-- C9: with a catalog of machines with non-empty names, `selectWithStrategy`
returns the sentinel (zero-value machine, score -1) exactly when the filter
chain eliminates every candidate; the sentinel is an ordinary value. -/
theorem claim_C9_sentinel (candidates : List AzureInstanceSpec) (w : WorkloadProfile)
    (strategy : SelectionStrategy) (h : ∀ c ∈ candidates, c.Name ≠ "") :
    selectWithStrategy candidates w strategy = (emptySpec, -1) ↔
      FilterInstanceTypes candidates w standardFilters = [] := by
  constructor
  · intro hsel
    cases hf : FilterInstanceTypes candidates w standardFilters with
    | nil => rfl
    | cons c rest =>
      obtain ⟨l₁, l₂, hsplit, _, _, _⟩ := selectWithStrategy_spec candidates w strategy c rest hf
      have hmem : (selectWithStrategy candidates w strategy).1 ∈ c :: rest := by
        rw [hsplit]
        exact List.mem_append.mpr (Or.inr (List.mem_cons_self _ _))
      have hmem' : (selectWithStrategy candidates w strategy).1 ∈ candidates :=
        List.filter_subset' candidates (hf ▸ hmem)
      have hname := h _ hmem'
      rw [hsel] at hname
      exact absurd rfl hname
  · exact selectWithStrategy_eq_of_filtered_nil candidates w strategy

theorem claim_C9_sentinel_witness :
    selectWithStrategy [exMachineA] exZoneWorkload SelectionStrategy.general =
        (emptySpec, -1) ↔
      FilterInstanceTypes [exMachineA] exZoneWorkload standardFilters = [] :=
  claim_C9_sentinel [exMachineA] exZoneWorkload SelectionStrategy.general (by decide)

/-- C10: the standard filter chain never checks raw CPU capacity: on a
concrete catalog and workload, `selectWithStrategy` returns a non-sentinel
machine whose `VCpus` is strictly below the workload's `CPURequirements`. -/
theorem claim_C10_capacity_unfiltered :
    (selectWithStrategy [exMachineA] exBigWorkload SelectionStrategy.general).1.Name = "a" ∧
    (selectWithStrategy [exMachineA] exBigWorkload SelectionStrategy.general).1.VCpus <
      exBigWorkload.CPURequirements := by
  decide

/-- C5: when the filter chain leaves at least one survivor, the selector
returns a survivor with maximal score; every survivor listed before it scores
strictly lower (first-listed wins ties), and the returned score is the
survivor's score. -/
theorem claim_C5_tiebreak (candidates : List AzureInstanceSpec) (w : WorkloadProfile)
    (strategy : SelectionStrategy)
    (h : FilterInstanceTypes candidates w standardFilters ≠ []) :
    ∃ l₁ l₂,
      FilterInstanceTypes candidates w standardFilters =
        l₁ ++ (selectWithStrategy candidates w strategy).1 :: l₂ ∧
      (∀ y ∈ l₁, ScoreInstance y w strategy <
        ScoreInstance (selectWithStrategy candidates w strategy).1 w strategy) ∧
      (∀ y ∈ FilterInstanceTypes candidates w standardFilters,
        ScoreInstance y w strategy ≤
          ScoreInstance (selectWithStrategy candidates w strategy).1 w strategy) ∧
      (selectWithStrategy candidates w strategy).2 =
        ScoreInstance (selectWithStrategy candidates w strategy).1 w strategy := by
  cases hf : FilterInstanceTypes candidates w standardFilters with
  | nil => exact absurd hf h
  | cons c rest =>
    obtain ⟨l₁, l₂, hsplit, hlt, hle, hsc⟩ := selectWithStrategy_spec candidates w strategy c rest hf
    refine ⟨l₁, l₂, hsplit, hlt, hle, hsc⟩

theorem claim_C5_tiebreak_witness :
    ∃ l₁ l₂,
      FilterInstanceTypes [exTwin1, exTwin2] zeroWorkload standardFilters =
        l₁ ++ (selectWithStrategy [exTwin1, exTwin2] zeroWorkload SelectionStrategy.general).1 :: l₂ ∧
      (∀ y ∈ l₁, ScoreInstance y zeroWorkload SelectionStrategy.general <
        ScoreInstance (selectWithStrategy [exTwin1, exTwin2] zeroWorkload SelectionStrategy.general).1
          zeroWorkload SelectionStrategy.general) ∧
      (∀ y ∈ FilterInstanceTypes [exTwin1, exTwin2] zeroWorkload standardFilters,
        ScoreInstance y zeroWorkload SelectionStrategy.general ≤
          ScoreInstance (selectWithStrategy [exTwin1, exTwin2] zeroWorkload SelectionStrategy.general).1
            zeroWorkload SelectionStrategy.general) ∧
      (selectWithStrategy [exTwin1, exTwin2] zeroWorkload SelectionStrategy.general).2 =
        ScoreInstance (selectWithStrategy [exTwin1, exTwin2] zeroWorkload SelectionStrategy.general).1
          zeroWorkload SelectionStrategy.general :=
  claim_C5_tiebreak [exTwin1, exTwin2] zeroWorkload SelectionStrategy.general (by decide)

/-- C6 counterexample: the workload demand sort is NOT stable.  On the input
`[exP1, exB1, exP2, exB2]` the tied demand-5 workloads `exP1` (listed first)
and `exP2` come out in the order `exP2, exP1`, so ties do not keep their
relative input order, refuting the claim as stated. -/
theorem claim_C6_cex :
    sortWorkloads [exP1, exB1, exP2, exB2] = [exB1, exB2, exP2, exP1] ∧
    demand exP1 = demand exP2 := by
  decide

/-- C6 amended: step 1 of both packing planners reorders the workload set into
an order that is non-increasing in the demand score
`CPURequirements + int(MemoryRequirements)` and is a permutation of the input;
ties are NOT guaranteed to keep their relative input order (the double-loop
exchange sort is unstable). -/
theorem claim_C6_amended (ws : List WorkloadProfile) :
    List.Perm (sortWorkloads ws) ws ∧
    List.Sorted (fun a b => demand b ≤ demand a) (sortWorkloads ws) :=
  ⟨sortWorkloads_perm ws, sortWorkloads_sorted ws⟩

/-- C2: the seed loop of `BinPackWorkloads` does NOT always terminate.  On the
concrete input of one workload demanding 2 CPUs and a catalog whose only
machine has 1 vCPU (selected because capacity is not filtered), the seed never
fits, no flag is ever set, and the loop runs forever: the fuelled model
returns `none` for every fuel.  This refutes the termination claim and
contradicts the code's own contract of returning a `PackingResult`. -/
theorem claim_C2_nontermination (fuel : Nat) :
    BinPackWorkloads fuel [exBigWorkload] [exMachineA] SelectionStrategy.general = none := by
  have hstuck := packLoop_stuck [exMachineA] SelectionStrategy.general
    (sortWorkloads [exBigWorkload]) (List.replicate 1 false) 0
    (by decide) (by decide) (by decide)
  show (packLoop [exMachineA] SelectionStrategy.general (sortWorkloads [exBigWorkload])
      fuel (List.replicate 1 false) []).map _ = none
  rw [hstuck fuel []]
  rfl

/-- C4: if the selector returns the no-machine sentinel for the current seed,
the packing loop terminates the whole run immediately with the result
accumulated so far, and the seed as well as every other not-yet-placed
workload position appears in no packed machine; the result is an ordinary
value, not an error. -/
theorem claim_C4_failfast (candidates : List AzureInstanceSpec)
    (strategy : SelectionStrategy) (sorted : List WorkloadProfile)
    (fuel : Nat) (u : List Bool) (acc : List PackedVMIdx) (i : Nat)
    (hfu : firstUnpacked u = some i)
    (hsent : (selectWithStrategy candidates (sorted.getD i default) strategy).1.Name = "")
    (hacc : ∀ p ∈ joinIdx acc, u.getD p.1 true = true) :
    packLoop candidates strategy sorted (fuel + 1) u acc = some acc.reverse ∧
    u.getD i true = false ∧
    ∀ j, u.getD j true = false → ∀ vm ∈ acc.reverse, j ∉ vm.2.map Prod.fst := by
  refine ⟨?_, firstUnpacked_getD u i hfu, ?_⟩
  · rw [packLoop, hfu]
    simp only [if_pos hsent]
  · intro j hj vm hvm hmem
    obtain ⟨p, hp, hpj⟩ := List.mem_map.mp hmem
    have hjoin : p ∈ joinIdx acc := by
      refine List.mem_flatten.mpr ⟨vm.2, ?_, hp⟩
      exact List.mem_map_of_mem Prod.snd (List.mem_reverse.mp hvm)
    have := hacc p hjoin
    rw [hpj, hj] at this
    exact Bool.false_ne_true this

theorem claim_C4_failfast_witness :
    packLoop [] SelectionStrategy.general [zeroWorkload] (0 + 1) [false]
        [] = some ([] : List PackedVMIdx).reverse ∧
    [false].getD 0 true = false ∧
    ∀ j, [false].getD j true = false →
      ∀ vm ∈ ([] : List PackedVMIdx).reverse, j ∉ vm.2.map Prod.fst :=
  claim_C4_failfast [] SelectionStrategy.general [zeroWorkload] 0 [false] [] 0
    (by decide) (by decide) (by simp [joinIdx])

/-! ### Erasure and result-shape helpers -/

theorem erased_flatten (idx : List PackedVMIdx) :
    ((idx.map erasePackedVM).map PackedVM.Workloads).flatten = (joinIdx idx).map Prod.snd := by
  induction idx with
  | nil => rfl
  | cons v t ih =>
    simp only [List.map_cons, List.flatten_cons, joinIdx_cons, List.map_append, ih]
    rfl

theorem enum_eq_enumFrom {α : Type} (l : List α) : l.enum = List.enumFrom 0 l :=
  rfl

theorem joinIdx_map_snd_subperm (sorted : List WorkloadProfile) (idx : List PackedVMIdx)
    (hnd : ((joinIdx idx).map Prod.fst).Nodup)
    (hmem : ∀ p ∈ joinIdx idx, p ∈ sorted.enum) :
    List.Subperm ((joinIdx idx).map Prod.snd) sorted := by
  have hnd' : (joinIdx idx).Nodup := List.Nodup.of_map Prod.fst hnd
  have hsp : List.Subperm (joinIdx idx) sorted.enum :=
    List.Nodup.subperm hnd' (fun p hp => hmem p hp)
  have hmapped := subperm_map Prod.snd hsp
  rwa [enum_eq_enumFrom, enumFrom_map_snd sorted 0] at hmapped

theorem binPack_some_shape (fuel : Nat) (ws : List WorkloadProfile)
    (cs : List AzureInstanceSpec) (s : SelectionStrategy) (res : PackingResult)
    (h : BinPackWorkloads fuel ws cs s = some res) :
    ∃ idx, packLoop cs s (sortWorkloads ws) fuel (List.replicate ws.length false) [] = some idx ∧
      res = ⟨idx.map erasePackedVM⟩ := by
  unfold BinPackWorkloads BinPackWorkloadsIdx at h
  obtain ⟨idx, hidx, hres⟩ := Option.map_eq_some'.mp h
  exact ⟨idx, hidx, hres.symm⟩

theorem binPackQuota_some_shape (fuel : Nat) (ws : List WorkloadProfile)
    (cs : List AzureInstanceSpec) (s : SelectionStrategy) (q : Option QuotaMap)
    (res : PackingResult)
    (h : BinPackWorkloadsWithQuota fuel ws cs s q = some res) :
    ∃ idx, quotaPackLoop s (sortWorkloads ws) q fuel cs
        (List.replicate ws.length false) (fun _ => 0) [] = some idx ∧
      res = ⟨idx.map erasePackedVM⟩ := by
  unfold BinPackWorkloadsWithQuota BinPackWorkloadsWithQuotaIdx at h
  obtain ⟨idx, hidx, hres⟩ := Option.map_eq_some'.mp h
  exact ⟨idx, hidx, hres.symm⟩

theorem famVCpus_erase (idx : List PackedVMIdx) (fam : String) :
    famVCpus ⟨idx.map erasePackedVM⟩ fam = famVCpusIdx idx fam := by
  unfold famVCpus famVCpusIdx erasePackedVM
  rw [List.map_map]
  rfl

/-- C1: packing conservation for `BinPackWorkloads` and
`BinPackWorkloadsWithQuota`: in every returned `PackedVM` the summed CPU
requirements fit the machine's vCPUs and the summed memory requirements fit
its memory (for data-model catalogs, i.e. non-negative capacities), and each
input workload (by position) is assigned to at most one `PackedVM`
(the assigned workloads form a sub-permutation of the input). -/
theorem claim_C1_conservation :
    (∀ (fuel : Nat) (workloads : List WorkloadProfile)
        (candidates : List AzureInstanceSpec) (strategy : SelectionStrategy)
        (res : PackingResult),
      (∀ c ∈ candidates, 0 ≤ c.VCpus ∧ 0 ≤ c.MemoryGiB) →
      BinPackWorkloads fuel workloads candidates strategy = some res →
      (∀ vm ∈ res.VMs, sumCpu vm.Workloads ≤ vm.InstanceType.VCpus ∧
        sumMem vm.Workloads ≤ vm.InstanceType.MemoryGiB) ∧
      List.Subperm ((res.VMs.map PackedVM.Workloads).flatten) workloads) ∧
    (∀ (fuel : Nat) (workloads : List WorkloadProfile)
        (candidates : List AzureInstanceSpec) (strategy : SelectionStrategy)
        (quota : Option QuotaMap) (res : PackingResult),
      (∀ c ∈ candidates, 0 ≤ c.VCpus ∧ 0 ≤ c.MemoryGiB) →
      BinPackWorkloadsWithQuota fuel workloads candidates strategy quota = some res →
      (∀ vm ∈ res.VMs, sumCpu vm.Workloads ≤ vm.InstanceType.VCpus ∧
        sumMem vm.Workloads ≤ vm.InstanceType.MemoryGiB) ∧
      List.Subperm ((res.VMs.map PackedVM.Workloads).flatten) workloads) := by
  constructor
  · intro fuel workloads candidates strategy res hc hres
    obtain ⟨idx, hidx, rfl⟩ := binPack_some_shape fuel workloads candidates strategy res hres
    have hcons := packLoop_conserve candidates strategy (sortWorkloads workloads) hc
      fuel _ [] idx hidx (by simp)
    obtain ⟨hnd, hmem⟩ := packLoop_pairs candidates strategy (sortWorkloads workloads)
      fuel _ [] idx hidx (by simp [joinIdx]) (by simp [joinIdx]) (by simp [joinIdx])
    constructor
    · intro vm hvm
      obtain ⟨v, hv, rfl⟩ := List.mem_map.mp hvm
      exact hcons v hv
    · show List.Subperm (((idx.map erasePackedVM).map PackedVM.Workloads).flatten) workloads
      rw [erased_flatten]
      exact (joinIdx_map_snd_subperm _ idx hnd hmem).trans (sortWorkloads_perm workloads).subperm
  · intro fuel workloads candidates strategy quota res hc hres
    obtain ⟨idx, hidx, rfl⟩ :=
      binPackQuota_some_shape fuel workloads candidates strategy quota res hres
    have hcons := quotaPackLoop_conserve strategy (sortWorkloads workloads) quota
      fuel candidates _ _ [] idx hidx hc (by simp)
    obtain ⟨hnd, hmem⟩ := quotaPackLoop_pairs strategy (sortWorkloads workloads) quota
      fuel candidates _ _ [] idx hidx (by simp [joinIdx]) (by simp [joinIdx]) (by simp [joinIdx])
    constructor
    · intro vm hvm
      obtain ⟨v, hv, rfl⟩ := List.mem_map.mp hvm
      exact hcons v hv
    · show List.Subperm (((idx.map erasePackedVM).map PackedVM.Workloads).flatten) workloads
      rw [erased_flatten]
      exact (joinIdx_map_snd_subperm _ idx hnd hmem).trans (sortWorkloads_perm workloads).subperm

theorem claim_C1_conservation_witness :
    ((∀ vm ∈ exRes1.VMs, sumCpu vm.Workloads ≤ vm.InstanceType.VCpus ∧
        sumMem vm.Workloads ≤ vm.InstanceType.MemoryGiB) ∧
      List.Subperm ((exRes1.VMs.map PackedVM.Workloads).flatten)
        [exSmallWorkload, exSmallWorkload]) ∧
    ((∀ vm ∈ exResQ.VMs, sumCpu vm.Workloads ≤ vm.InstanceType.VCpus ∧
        sumMem vm.Workloads ≤ vm.InstanceType.MemoryGiB) ∧
      List.Subperm ((exResQ.VMs.map PackedVM.Workloads).flatten)
        [exSmallWorkload]) :=
  ⟨claim_C1_conservation.1 5 [exSmallWorkload, exSmallWorkload] [exMachineA]
      SelectionStrategy.general exRes1 (by decide) (by decide),
    claim_C1_conservation.2 3 [exSmallWorkload] [exMachineF]
      SelectionStrategy.general (some [("F", 4)]) exResQ (by decide) (by decide)⟩

/-- C7 counterexample: a family present in the quota map with value 0 is NOT
enforced (the Go guard requires `quota[fam] > 0`).  With quota `{"F": 0}` the
run commits a 4-vCPU machine of family `F`, so the cumulative committed vCPUs
of a mapped family exceed its quota value, refuting the claim as stated. -/
theorem claim_C7_cex :
    ((BinPackWorkloadsWithQuota 3 [exSmallWorkload] [exMachineF]
        SelectionStrategy.general (some [("F", 0)])).map
      (fun r => decide (famVCpus r "F" ≤ qlookup [("F", 0)] "F"))) = some false := by
  decide

/-- C7 amended: for every family whose quota-map value is POSITIVE, the
cumulative committed vCPUs of that family in any returned result stay within
the quota; and whenever committing the chosen machine would push a
positive-quota family over its limit, the loop removes every candidate of that
family and retries selection for the same seed instead of committing. -/
theorem claim_C7_quota :
    (∀ (fuel : Nat) (workloads : List WorkloadProfile)
        (candidates : List AzureInstanceSpec) (strategy : SelectionStrategy)
        (q : QuotaMap) (res : PackingResult),
      BinPackWorkloadsWithQuota fuel workloads candidates strategy (some q) = some res →
      ∀ fam, 0 < qlookup q fam → famVCpus res fam ≤ qlookup q fam) ∧
    (∀ (strategy : SelectionStrategy) (sorted : List WorkloadProfile) (q : QuotaMap)
        (fuel : Nat) (candidates : List AzureInstanceSpec) (u : List Bool)
        (used : String → Int) (acc : List PackedVMIdx) (i : Nat),
      firstUnpacked u = some i →
      ¬ (selectWithStrategy candidates (sorted.getD i default) strategy).1.Name = "" →
      0 < qlookup q (selectWithStrategy candidates (sorted.getD i default) strategy).1.Family →
      qlookup q (selectWithStrategy candidates (sorted.getD i default) strategy).1.Family <
        used (selectWithStrategy candidates (sorted.getD i default) strategy).1.Family +
          (selectWithStrategy candidates (sorted.getD i default) strategy).1.VCpus →
      quotaPackLoop strategy sorted (some q) (fuel + 1) candidates u used acc =
        quotaPackLoop strategy sorted (some q) fuel
          (candidates.filter (fun c =>
            !(c.Family ==
              (selectWithStrategy candidates (sorted.getD i default) strategy).1.Family)))
          u used acc) := by
  constructor
  · intro fuel workloads candidates strategy q res hres fam hq
    obtain ⟨idx, hidx, rfl⟩ :=
      binPackQuota_some_shape fuel workloads candidates strategy (some q) res hres
    rw [famVCpus_erase]
    refine quotaPackLoop_quota strategy (sortWorkloads workloads) q fuel candidates _ _ [] idx
      hidx ?_ ?_ fam hq
    · intro fam' hq'
      exact le_of_lt hq'
    · intro fam'
      rfl
  · intro strategy sorted q fuel candidates u used acc i hfu hb hqpos hqlt
    rw [quotaPackLoop, hfu]
    simp only [if_neg hb]
    have hblk : quotaBlocked (some q)
        (selectWithStrategy candidates (sorted.getD i default) strategy).1.Family used
        (selectWithStrategy candidates (sorted.getD i default) strategy).1.VCpus = true := by
      simp only [quotaBlocked, Bool.and_eq_true, decide_eq_true_eq]
      exact ⟨hqpos, hqlt⟩
    rw [if_pos hblk]

theorem claim_C7_quota_witness :
    famVCpus exResQ "F" ≤ qlookup [("F", 4)] "F" :=
  claim_C7_quota.1 3 [exSmallWorkload] [exMachineF] SelectionStrategy.general
    [("F", 4)] exResQ (by decide) "F" (by decide)

/-- C8: baseline dominance: whenever `BinPackWorkloads` returns a result (for
workloads with non-negative requirements), it uses at most as many machines as
the naive one-workload-per-machine packer `BinPackWorkloadsNaive` on the same
workloads and catalog. -/
theorem claim_C8_dominance (fuel : Nat) (workloads : List WorkloadProfile)
    (candidates : List AzureInstanceSpec) (strategy : SelectionStrategy)
    (res : PackingResult)
    (hw : ∀ w ∈ workloads, 0 ≤ w.CPURequirements ∧ 0 ≤ w.MemoryRequirements)
    (hres : BinPackWorkloads fuel workloads candidates strategy = some res) :
    res.VMs.length ≤ (BinPackWorkloadsNaive workloads candidates).VMs.length := by
  obtain ⟨idx, hidx, rfl⟩ := binPack_some_shape fuel workloads candidates strategy res hres
  have hw' : ∀ p ∈ (sortWorkloads workloads).enum,
      0 ≤ p.2.CPURequirements ∧ 0 ≤ p.2.MemoryRequirements := by
    intro p hp
    have h2 : p.2 ∈ sortWorkloads workloads := by
      rw [enum_eq_enumFrom] at hp
      exact mem_enumFrom_snd (sortWorkloads workloads) 0 p hp
    exact hw p.2 ((sortWorkloads_perm workloads).mem_iff.mp h2)
  have hne := packLoop_nonempty candidates strategy (sortWorkloads workloads)
    fuel _ [] idx hidx (by simp)
  obtain ⟨hnd, hmem⟩ := packLoop_pairs candidates strategy (sortWorkloads workloads)
    fuel _ [] idx hidx (by simp [joinIdx]) (by simp [joinIdx]) (by simp [joinIdx])
  have hfit := packLoop_fitsSome candidates strategy (sortWorkloads workloads) hw'
    fuel _ [] idx hidx (by simp [joinIdx])
  have hlen1 : (PackingResult.mk (idx.map erasePackedVM)).VMs.length = idx.length := by
    simp
  have hlen2 : idx.length ≤ (joinIdx idx).length := length_le_joinIdx_length idx hne
  have hsubset : joinIdx idx ⊆
      (sortWorkloads workloads).enum.filter (fun p => fitsSomeB candidates p.2) := by
    intro p hp
    exact List.mem_filter.mpr ⟨hmem p hp, hfit p hp⟩
  have hlen3 : (joinIdx idx).length ≤
      ((sortWorkloads workloads).enum.filter (fun p => fitsSomeB candidates p.2)).length :=
    (List.Nodup.subperm (List.Nodup.of_map Prod.fst hnd) hsubset).length_le
  have hlen4 : ((sortWorkloads workloads).enum.filter
        (fun p => fitsSomeB candidates p.2)).length =
      ((sortWorkloads workloads).filter (fun w => fitsSomeB candidates w)).length := by
    rw [enum_eq_enumFrom]
    exact length_filter_enumFrom (fun w => fitsSomeB candidates w) (sortWorkloads workloads) 0
  have hlen5 : ((sortWorkloads workloads).filter (fun w => fitsSomeB candidates w)).length =
      (workloads.filter (fun w => fitsSomeB candidates w)).length :=
    ((sortWorkloads_perm workloads).filter _).length_eq
  rw [BinPackWorkloadsNaive_length, hlen1]
  omega

theorem claim_C8_dominance_witness :
    exRes1.VMs.length ≤
      (BinPackWorkloadsNaive [exSmallWorkload, exSmallWorkload] [exMachineA]).VMs.length :=
  claim_C8_dominance 5 [exSmallWorkload, exSmallWorkload] [exMachineA]
    SelectionStrategy.general exRes1 (by decide) (by decide)

end Resolver
